/-
  Verification of the sddp-discovery-protocol package (SDDP: Simple Device
  Discovery Protocol).

  This file gives a shallow embedding, in Lean 4, of the parts of the package
  that the specification's claims are about:

  * sddp_datagram.py : the SddpDatagram value (statement line, raw headers,
    decoded headers, body) with its serializer (_rebuild_raw_data) and parser
    (the raw_data setter), plus the header-mutating operations and hdr_from.
  * util.py : split_bytes_at_lf_or_crlf, split_headers_and_body,
    parse_http_headers, encode_http_header.
  * sddp_socket.py : the SddpDatagramSubscriber queue/end-of-stream state
    machine, and the SddpSocket final_result / subscriber-set / binding model.
  * server.py : the responder task's per-datagram step.
  * client.py : the search-response iteration of SddpSearchRequest.

  Bytes are modelled as List Char (the package only ever round-trips UTF-8
  text through bytes; on the byte strings considered here the UTF-8
  encode/decode pair is the identity, so a byte is represented by its
  character).  External libraries used by the source are modelled where the
  source calls into them, and each such model says so in its doc comment:
  the json module (string/integer fragment), the email header parser
  (unfolded header blocks), Python re (the two concrete anchored patterns,
  compiled to equivalent sequential matchers), and asyncio queues/futures
  (explicit state).
-/
import Mathlib

set_option maxRecDepth 10000

namespace SddpProof

/-- A byte string, as the characters of its UTF-8 decoding. -/
abbrev Bytes := List Char

/-- Shorthand turning a Lean string literal into the Bytes model. -/
def toB (s : String) : Bytes := s.toList

/-- Case folding used by requests.structures.CaseInsensitiveDict
    (Python str.lower applied to the key). -/
def lowerB (s : Bytes) : Bytes := s.map Char.toLower

/-- Model of requests.structures.CaseInsensitiveDict: an association list
    whose entries keep the most recently stored casing of the key, looked up
    case-insensitively.  The backing dict keyed by key.lower() makes lower-cased
    keys unique; every operation below preserves that uniqueness. -/
abbrev CIDict (α : Type) := List (Bytes × α)

/-- Case-insensitive lookup (CaseInsensitiveDict.__getitem__ / .get). -/
def ciLookup {α : Type} : CIDict α → Bytes → Option α
  | [], _ => none
  | (k0, v0) :: rest, k => if lowerB k0 = lowerB k then some v0 else ciLookup rest k

/-- Case-insensitive membership (`name in d`). -/
def ciContains {α : Type} (d : CIDict α) (k : Bytes) : Bool :=
  (ciLookup d k).isSome

/-- CaseInsensitiveDict.__setitem__: replaces the entry with the same
    lower-cased key in place (keeping dict position), storing the new casing;
    appends if absent. -/
def ciSet {α : Type} : CIDict α → Bytes → α → CIDict α
  | [], k, v => [(k, v)]
  | (k0, v0) :: rest, k, v =>
      if lowerB k0 = lowerB k then (k, v) :: rest else (k0, v0) :: ciSet rest k v

/-- CaseInsensitiveDict.pop(k, None): removes the case-insensitive match. -/
def ciPop {α : Type} : CIDict α → Bytes → CIDict α
  | [], _ => []
  | (k0, v0) :: rest, k =>
      if lowerB k0 = lowerB k then rest else (k0, v0) :: ciPop rest k

/-- The stored (cased) keys, in dict order. -/
def ciKeys {α : Type} (d : CIDict α) : List Bytes := d.map Prod.fst

/-- CaseInsensitiveDict.__eq__: the two dicts agree as maps on lower-cased
    keys (dict(self.lower_items()) == dict(other.lower_items())). -/
def ciEquiv {α : Type} (d1 d2 : CIDict α) : Prop :=
  ∀ k : Bytes, ciLookup d1 k = ciLookup d2 k

/-- Lower-cased keys are pairwise distinct: the invariant maintained by the
    dict backing a CaseInsensitiveDict. -/
def ciWF {α : Type} (d : CIDict α) : Prop :=
  (d.map fun e => lowerB e.1).Nodup

/-! ### Decoded header values and the json model

sddp_datagram.py declares HeaderValue = Union[str, int, float] and uses
json.dumps / json.loads to convert between the raw (wire) form and the
decoded form of a header value. -/

/-- A decoded header value.  Modelled from the source's HeaderValue =
    Union[str, int, float], restricted to the string/integer fragment that
    the specification's claims exercise (floating point values are outside
    the shallow embedding). -/
inductive HeaderValue : Type
  | str (s : Bytes)
  | int (n : Int)
deriving DecidableEq, Repr, Inhabited

/-- json.dumps escaping of one character inside a string literal.  Modelled
    from the json module (external to the repository): the two mandatory
    escapes and the common control characters; other characters pass through
    unchanged (values are restricted to characters that json.dumps emits
    verbatim). -/
def jsonEscapeChar (c : Char) : Bytes :=
  if c = '"' then ['\\', '"']
  else if c = '\\' then ['\\', '\\']
  else if c = '\n' then ['\\', 'n']
  else if c = '\r' then ['\\', 'r']
  else if c = '\t' then ['\\', 't']
  else [c]

/-- The body of a json string literal for s. -/
def jsonEscape (s : Bytes) : Bytes := s.flatMap jsonEscapeChar

/-- Decimal digits of a natural number, most significant first, via
    explicit fuel so that the definition is structural (and reduces in the
    kernel on concrete input).  With fuel ≥ n this is Python's str(n) for
    n > 0, and [] for n = 0. -/
def natDigitsAux : Nat → Nat → Bytes
  | 0, _ => []
  | fuel + 1, n =>
      if n = 0 then [] else natDigitsAux fuel (n / 10) ++ [Char.ofNat (48 + n % 10)]

/-- Python str(n) for a natural number. -/
def natToBytes (n : Nat) : Bytes :=
  if n = 0 then ['0'] else natDigitsAux (n + 1) n

/-- Python str(n) / json.dumps(n) for an integer. -/
def intToBytes (n : Int) : Bytes :=
  if n < 0 then '-' :: natToBytes n.natAbs else natToBytes n.natAbs

/-- json.dumps on a header value: strings are quoted and escaped, integers
    are printed bare. -/
def jsonDumps : HeaderValue → Bytes
  | .str s => '"' :: jsonEscape s ++ ['"']
  | .int n => intToBytes n

/-- Reads the body of a json string literal up to its closing quote;
    returns the unescaped content.  Fails on an unterminated literal, on a
    bad escape, or when anything follows the closing quote. -/
def jsonUnquote : Bytes → Option Bytes
  | [] => none
  | c :: rest =>
      if c = '"' then if rest = [] then some [] else none
      else if c = '\\' then
        match rest with
        | [] => none
        | e :: rest2 =>
            if e = '"' then (jsonUnquote rest2).map (fun t => '"' :: t)
            else if e = '\\' then (jsonUnquote rest2).map (fun t => '\\' :: t)
            else if e = 'n' then (jsonUnquote rest2).map (fun t => '\n' :: t)
            else if e = 'r' then (jsonUnquote rest2).map (fun t => '\r' :: t)
            else if e = 't' then (jsonUnquote rest2).map (fun t => '\t' :: t)
            else none
      else (jsonUnquote rest).map (fun t => c :: t)

/-- Digit-string accumulator: all remaining characters must be decimal
    digits. -/
def parseDigitsAcc : Bytes → Nat → Option Nat
  | [], acc => some acc
  | c :: rest, acc =>
      if c.isDigit then parseDigitsAcc rest (acc * 10 + (c.toNat - 48)) else none

/-- The json number grammar for integers: an optional minus sign and digits
    with no leading zero. -/
def jsonParseNatStrict : Bytes → Option Nat
  | [] => none
  | c :: rest =>
      if c = '0' then (if rest = [] then some 0 else none)
      else if c.isDigit then parseDigitsAcc rest (c.toNat - 48)
      else none

/-- json.loads on a raw header value.  Modelled from the json module
    (external to the repository), restricted to the string/integer fragment:
    a quoted string literal or an integer token decodes; every other raw
    value is treated as undecodable (the source stores any other successful
    json decode too, but no claim exercises those values). -/
def jsonLoads (raw : Bytes) : Option HeaderValue :=
  match raw with
  | '"' :: rest => (jsonUnquote rest).map .str
  | '-' :: rest => (jsonParseNatStrict rest).map (fun k => .int (-(k : Int)))
  | _ => (jsonParseNatStrict raw).map (fun k => .int (k : Int))

/-- Python int(s) on a string: an optional sign followed by at least one
    decimal digit (leading zeros allowed).  Modelled from the Python builtin
    (external to the repository); surrounding whitespace and underscore
    separators, which int() also tolerates, are outside the model. -/
def pyParseInt (s : Bytes) : Option Int :=
  match s with
  | [] => none
  | c :: rest =>
      if c = '-' then
        match rest with
        | [] => none
        | d :: rest2 =>
            if d.isDigit then (parseDigitsAcc rest2 (d.toNat - 48)).map (fun k => -(k : Int))
            else none
      else if c = '+' then
        match rest with
        | [] => none
        | d :: rest2 =>
            if d.isDigit then (parseDigitsAcc rest2 (d.toNat - 48)).map (fun k => (k : Int))
            else none
      else if c.isDigit then (parseDigitsAcc rest (c.toNat - 48)).map (fun k => (k : Int))
      else none

/-! ### The SddpDatagram value (sddp_datagram.py)

The datagram's stored fields are the statement line, the raw header dict,
the decoded header dict and the body; the cached _raw_data byte string is
recomputed by _rebuild_raw_data after every mutation, so here it is the
derived function rebuild_raw_data. -/

/-- The SddpDatagram value: statement line (no terminator), raw headers,
    decoded headers and body. -/
structure SddpDatagram where
  statement_line : Bytes
  raw_headers : CIDict Bytes
  headers : CIDict HeaderValue
  body : Bytes
deriving DecidableEq, Repr

/-- SddpDatagram.__eq__: statement line, raw headers (case-insensitively)
    and body; the cached raw bytes and the decoded map are not compared. -/
def sddpDatagramEq (a b : SddpDatagram) : Prop :=
  a.statement_line = b.statement_line ∧ ciEquiv a.raw_headers b.raw_headers ∧ a.body = b.body

/-- Python string < on the code points, as used by sorted() on header
    names. -/
def bytesLt : Bytes → Bytes → Bool
  | [], [] => false
  | [], _ :: _ => true
  | _ :: _, [] => false
  | a :: as_, b :: bs =>
      if a < b then true else if b < a then false else bytesLt as_ bs

/-- Insertion into a key-sorted entry list. -/
def insertEntrySorted {α : Type} (e : Bytes × α) : List (Bytes × α) → List (Bytes × α)
  | [] => [e]
  | e2 :: rest =>
      if bytesLt e.1 e2.1 then e :: e2 :: rest else e2 :: insertEntrySorted e rest

/-- The dict's entries sorted by (cased) key, as produced by iterating
    sorted(raw_headers.keys()) and looking each key up: with unique
    lower-cased keys the lookup returns that entry's own value, so sorting
    the entries is the same iteration. -/
def sortEntries {α : Type} : List (Bytes × α) → List (Bytes × α)
  | [] => []
  | e :: rest => insertEntrySorted e (sortEntries rest)

/-- util.encode_http_header: "name: value\r\n".  The RFC 2822 folding that
    email.header.Header (external to the repository) applies to long values
    is modelled as the identity, i.e. values short enough not to fold. -/
def encode_http_header (name value : Bytes) : Bytes :=
  name ++ ':' :: ' ' :: (value ++ ['\r', '\n'])

/-- SddpDatagram._rebuild_raw_data: the statement line and CRLF (omitted
    when the statement line is empty), the raw headers sorted by name, and,
    only when the body is nonempty, a blank line and the body. -/
def rebuild_raw_data (d : SddpDatagram) : Bytes :=
  let base := if d.statement_line = [] then [] else d.statement_line ++ ['\r', '\n']
  let withHeaders :=
    base ++ (sortEntries d.raw_headers).flatMap (fun e => encode_http_header e.1 e.2)
  if d.body = [] then withHeaders else withHeaders ++ '\r' :: '\n' :: d.body

/-- Split at the first LF, keeping the raw first part. -/
def splitOnceAtLf : Bytes → Option (Bytes × Bytes)
  | [] => none
  | c :: rest =>
      if c = '\n' then some ([], rest)
      else (splitOnceAtLf rest).map (fun p => (c :: p.1, p.2))

/-- Removes the single trailing CR that split_bytes_at_lf_or_crlf strips
    from a part that ended in CRLF. -/
def stripTrailingCR (s : Bytes) : Bytes :=
  if s.getLast? = some '\r' then s.dropLast else s

/-- util.split_bytes_at_lf_or_crlf with maxsplit=1 (the only way the parser
    calls it): split at the first LF; a CR just before that LF is removed
    from the first part.  Returns none when the data holds no LF at all; the
    caller (the raw_data setter) then indexes past the end of the part list
    and raises IndexError. -/
def split_bytes_at_lf_or_crlf1 (data : Bytes) : Option (Bytes × Bytes) :=
  (splitOnceAtLf data).map (fun p => (stripTrailingCR p.1, p.2))

/-- The leftmost occurrence of either blank-line delimiter b"\n\r\n" or
    b"\n\n" (util.split_headers_and_body computes the two finds separately
    and keeps the smaller index; scanning left to right and testing both
    delimiters at each position yields that same leftmost match).  Returns
    the data before the delimiter and after it. -/
def findDelim : Bytes → Option (Bytes × Bytes)
  | [] => none
  | c :: rest =>
      if c = '\n' ∧ rest.take 2 = ['\r', '\n'] then some ([], rest.drop 2)
      else if c = '\n' ∧ rest.take 1 = ['\n'] then some ([], rest.drop 1)
      else (findDelim rest).map (fun p => (c :: p.1, p.2))

/-- util.split_headers_and_body: header block and body around the first
    blank line; without a blank line the body is empty; a CR left at the end
    of the header block is stripped. -/
def split_headers_and_body (data : Bytes) : Bytes × Bytes :=
  match findDelim data with
  | none => (data, [])
  | some (pre, post) => (stripTrailingCR pre, post)

/-- The line-ending normalization inside util.parse_http_headers: every LF
    not already preceded by CR gets a CR inserted, left to right. -/
def normalizeLf : Bytes → Bytes
  | [] => []
  | [c] => if c = '\n' then ['\r', '\n'] else [c]
  | c1 :: c2 :: rest =>
      if c1 = '\n' then '\r' :: '\n' :: normalizeLf (c2 :: rest)
      else if c1 = '\r' ∧ c2 = '\n' then '\r' :: '\n' :: normalizeLf rest
      else c1 :: normalizeLf (c2 :: rest)

/-- Splits a normalized header block into its CRLF-separated lines (the
    final line needs no terminator). -/
def splitLinesCRLF : Bytes → List Bytes
  | [] => [[]]
  | [c] => [[c]]
  | c1 :: c2 :: rest =>
      if c1 = '\r' ∧ c2 = '\n' then [] :: splitLinesCRLF rest
      else
        match splitLinesCRLF (c2 :: rest) with
        | [] => [[c1]]
        | l :: ls => (c1 :: l) :: ls

/-- Splits a header line at its first colon. -/
def splitAtColon : Bytes → Option (Bytes × Bytes)
  | [] => none
  | c :: rest =>
      if c = ':' then some ([], rest)
      else (splitAtColon rest).map (fun p => (c :: p.1, p.2))

/-- Drops the whitespace between the colon and the value. -/
def dropLeadingWS : Bytes → Bytes
  | [] => []
  | c :: rest => if c = ' ' ∨ c = '\t' then dropLeadingWS rest else c :: rest

/-- One header line as the email parser reads it: the name before the first
    colon and the value after it, with the leading whitespace stripped.
    Lines without a colon yield nothing. -/
def parseHeaderLine (line : Bytes) : Option (Bytes × Bytes) :=
  (splitAtColon line).map (fun p => (p.1, dropLeadingWS p.2))

/-- util.parse_http_headers: split off the body, normalize the line endings
    of the header block, and read its lines into a CaseInsensitiveDict (a
    later duplicate name overrides an earlier one, as in
    CaseInsensitiveDict(msg.items())).  email.parser.BytesHeaderParser is
    external to the repository; it is modelled for unfolded header blocks
    whose lines each carry a colon, which is the shape this package's own
    serializer emits. -/
def parse_http_headers (data : Bytes) : CIDict Bytes × Bytes :=
  let hb := split_headers_and_body data
  let lines := splitLinesCRLF (normalizeLf hb.1)
  (lines.foldl
    (fun acc line =>
      match parseHeaderLine line with
      | none => acc
      | some (name, value) => ciSet acc name value) [],
   hb.2)

/-- SddpDatagram._rebuild_headers: the decoded dict recomputed from the raw
    dict (each raw value json-decoded; failures leave no decoded entry). -/
def rebuildHeaders (raw : CIDict Bytes) : CIDict HeaderValue :=
  raw.foldl
    (fun acc e =>
      match jsonLoads e.2 with
      | some hv => ciSet acc e.1 hv
      | none => ciPop acc e.1) []

/-- The raw_data setter of SddpDatagram (the parser): the first line becomes
    the statement line, the remainder is split into raw headers and body,
    and the decoded headers are rebuilt.  none models the IndexError the
    setter raises when the data holds no LF at all. -/
def parseSddpDatagram (data : Bytes) : Option SddpDatagram :=
  match split_bytes_at_lf_or_crlf1 data with
  | none => none
  | some (first, rest) =>
      let hb := parse_http_headers rest
      some { statement_line := first
             raw_headers := hb.1
             headers := rebuildHeaders hb.1
             body := hb.2 }

/-! ### Header-mutating operations on an SddpDatagram

Every public mutator below finishes with _rebuild_raw_data, which only
recomputes the derived byte string (rebuild_raw_data here), so the
operations act on the four stored fields. -/

/-- SddpDatagram._update_header_from_raw_header: re-decode one raw value
    into the decoded dict, removing the decoded entry if the value is not
    valid json. -/
def update_header_from_raw_header (d : SddpDatagram) (name : Bytes) (value : Bytes) :
    SddpDatagram :=
  match jsonLoads value with
  | some hv => { d with headers := ciSet d.headers name hv }
  | none => { d with headers := ciPop d.headers name }

/-- SddpDatagram._del_header_no_rebuild / del_header: remove the header
    from both dicts (a no-op when absent). -/
def del_header (d : SddpDatagram) (name : Bytes) : SddpDatagram :=
  { d with headers := ciPop d.headers name, raw_headers := ciPop d.raw_headers name }

/-- SddpDatagram.set_header: a None value deletes; otherwise the decoded
    dict gets the value and the raw dict its json encoding. -/
def set_header (d : SddpDatagram) (name : Bytes) (value : Option HeaderValue) :
    SddpDatagram :=
  match value with
  | none => del_header d name
  | some v =>
      { d with headers := ciSet d.headers name v
               raw_headers := ciSet d.raw_headers name (jsonDumps v) }

/-- SddpDatagram.set_raw_header: a None value deletes; otherwise the raw
    dict gets the value and the decoded dict is re-derived for that name. -/
def set_raw_header (d : SddpDatagram) (name : Bytes) (value : Option Bytes) :
    SddpDatagram :=
  match value with
  | none => del_header d name
  | some v => update_header_from_raw_header { d with raw_headers := ciSet d.raw_headers name v } name v

/-- SddpDatagram.update (and the header mapping given to __init__): each
    name/value pair applied through set_header in order. -/
def updateHeaders (d : SddpDatagram) (pairs : List (Bytes × Option HeaderValue)) :
    SddpDatagram :=
  pairs.foldl (fun acc e => set_header acc e.1 e.2) d

/-- SddpDatagram.update_raw_headers: each pair applied through
    set_raw_header in order. -/
def update_raw_headers (d : SddpDatagram) (pairs : List (Bytes × Option Bytes)) :
    SddpDatagram :=
  pairs.foldl (fun acc e => set_raw_header acc e.1 e.2) d

/-- SddpDatagram.clear_headers: both dicts cleared. -/
def clear_headers (d : SddpDatagram) : SddpDatagram :=
  { d with headers := [], raw_headers := [] }

/-- SddpDatagram._clear_decoded_headers_no_rebuild / clear_decoded_headers:
    every decoded key is popped from the raw dict, then the decoded dict is
    cleared; raw entries that were not valid json stay. -/
def clear_decoded_headers (d : SddpDatagram) : SddpDatagram :=
  { d with raw_headers := (ciKeys d.headers).foldl ciPop d.raw_headers
           headers := [] }

/-- The headers property setter: clear the decoded headers (keeping raw
    non-json entries), then update from the given mapping if not None. -/
def assign_headers (d : SddpDatagram) (value : Option (List (Bytes × Option HeaderValue))) :
    SddpDatagram :=
  let d1 := clear_decoded_headers d
  match value with
  | none => d1
  | some pairs => updateHeaders d1 pairs

/-- The raw_headers property setter: None clears both dicts; otherwise the
    raw dict alone is cleared (self._raw_headers.clear()) and the mapping is
    applied through update_raw_headers, which touches the decoded dict only
    at the supplied names. -/
def assign_raw_headers (d : SddpDatagram) (value : Option (List (Bytes × Bytes))) :
    SddpDatagram :=
  match value with
  | none => clear_headers d
  | some pairs =>
      update_raw_headers { d with raw_headers := [] } (pairs.map fun e => (e.1, some e.2))

/-- One header-mutating operation of the claim's list. -/
inductive HeaderOp : Type
  | set (name : Bytes) (value : Option HeaderValue)
  | setRaw (name : Bytes) (value : Option Bytes)
  | del (name : Bytes)
  | updateMany (pairs : List (Bytes × Option HeaderValue))
  | updateManyRaw (pairs : List (Bytes × Option Bytes))
  | clearAll
  | clearDecoded
  | assignDecoded (value : Option (List (Bytes × Option HeaderValue)))
  | assignRaw (value : Option (List (Bytes × Bytes)))

/-- Applies one operation. -/
def applyHeaderOp (d : SddpDatagram) : HeaderOp → SddpDatagram
  | .set name value => set_header d name value
  | .setRaw name value => set_raw_header d name value
  | .del name => del_header d name
  | .updateMany pairs => updateHeaders d pairs
  | .updateManyRaw pairs => update_raw_headers d pairs
  | .clearAll => clear_headers d
  | .clearDecoded => clear_decoded_headers d
  | .assignDecoded value => assign_headers d value
  | .assignRaw value => assign_raw_headers d value

/-- Applies a finite sequence of operations in order. -/
def applyHeaderOps (d : SddpDatagram) (ops : List HeaderOp) : SddpDatagram :=
  ops.foldl applyHeaderOp d

/-- Decoded/raw coherence (spec section 8 law 4): every decoded key is
    present in the raw dict and its raw value json-decodes back to the
    decoded value. -/
def coherent (d : SddpDatagram) : Prop :=
  ∀ k v, ciLookup d.headers k = some v →
    ∃ r, ciLookup d.raw_headers k = some r ∧ jsonLoads r = some v

/-- SddpDatagram.__init__ from (statement, headers, body): start empty and
    apply the header mapping through set_header. -/
def mkSddpDatagram (statement : Bytes) (headers : List (Bytes × Option HeaderValue))
    (body : Bytes) : SddpDatagram :=
  updateHeaders
    { statement_line := statement, raw_headers := [], headers := [], body := body }
    headers

/-! ### The subscriber channel (sddp_socket.py, SddpDatagramSubscriber)

The subscriber's state is its bounded asyncio.Queue (an explicit FIFO list
whose entries are either a delivered tuple or the None wake-up sentinel),
its final_result future (pending, completed with a result, or completed
with an exception), and the eos / eos_exc flags.  The event loop is
cooperative and none of the methods below suspends before its state
updates, so each is one atomic step; receive() is modelled as a step that
returns blocked when the coroutine would suspend on an empty queue. -/

/-- The queued tuples are abstracted by α and engine errors by ε. -/
structure Subscriber (α ε : Type) : Type where
  queue : List (Option α)
  max_queue_size : Nat
  final : Option (Option ε)
  eos : Bool
  eos_exc : Option ε
deriving Repr

/-- asyncio.Queue.put_nowait: appends unless the queue is full (a maxsize
    of 0 means unbounded); QueueFull is swallowed by every caller, dropping
    the element. -/
def queuePut {α ε : Type} (s : Subscriber α ε) (x : Option α) : Subscriber α ε :=
  if s.max_queue_size = 0 ∨ s.queue.length < s.max_queue_size then
    { s with queue := s.queue ++ [x] }
  else s

/-- SddpDatagramSubscriber.set_final_result: when the future is still
    pending, complete it with success, push a wake-up sentinel, and mark
    end-of-stream with no error. -/
def subSetFinalResult {α ε : Type} (s : Subscriber α ε) : Subscriber α ε :=
  match s.final with
  | some _ => s
  | none =>
      let s1 := queuePut { s with final := some none } none
      { s1 with eos := true, eos_exc := none }

/-- SddpDatagramSubscriber.set_final_exception. -/
def subSetFinalException {α ε : Type} (s : Subscriber α ε) (e : ε) : Subscriber α ε :=
  match s.final with
  | some _ => s
  | none =>
      let s1 := queuePut { s with final := some (some e) } none
      { s1 with eos := true, eos_exc := none }

/-- SddpDatagramSubscriber.on_datagram: enqueue unless end-of-stream was
    signalled or the future completed; a full queue drops the tuple. -/
def onDatagram {α ε : Type} (s : Subscriber α ε) (d : α) : Subscriber α ε :=
  if s.eos = false ∧ s.final.isNone then queuePut s (some d) else s

/-- SddpDatagramSubscriber.on_end_of_stream: record eos and its optional
    error and push a wake-up sentinel; a second call is a no-op. -/
def onEndOfStream {α ε : Type} (s : Subscriber α ε) (exc : Option ε) : Subscriber α ε :=
  if s.eos = false ∧ s.final.isNone then
    queuePut { s with eos := true, eos_exc := exc } none
  else s

/-- What one receive() call does: return a tuple, return None
    (end-of-stream), raise the terminal error, or suspend. -/
inductive RecvOutcome (α ε : Type) : Type
  | item (d : α)
  | eosNone
  | raised (e : ε)
  | blocked
deriving DecidableEq, Repr

/-- SddpDatagramSubscriber.receive as one step: a completed future is
    re-awaited and ends the stream; an empty drained queue after eos
    completes the future from eos_exc; otherwise the queue is popped, and a
    popped sentinel completes the future from eos_exc. -/
def receive {α ε : Type} (s : Subscriber α ε) : Subscriber α ε × RecvOutcome α ε :=
  match s.final with
  | some none => (s, .eosNone)
  | some (some e) => (s, .raised e)
  | none =>
      if s.eos ∧ s.queue.isEmpty then
        match s.eos_exc with
        | none => (subSetFinalResult s, .eosNone)
        | some e => (subSetFinalException s e, .raised e)
      else
        match s.queue with
        | [] => (s, .blocked)
        | some d :: rest => ({ s with queue := rest }, .item d)
        | none :: rest =>
            let s1 : Subscriber α ε := { s with queue := rest }
            match s1.eos_exc with
            | none => (subSetFinalResult s1, .eosNone)
            | some e => (subSetFinalException s1 e, .raised e)

/-- One event in a subscriber's life: a receive() call by its consumer or
    one of the engine-side notifications. -/
inductive SubEvent (α ε : Type) : Type
  | recv
  | dg (d : α)
  | eosEv (exc : Option ε)
  | setRes
  | setExc (e : ε)

/-- Runs one event, returning the outcome when it was a receive. -/
def subStep {α ε : Type} (s : Subscriber α ε) :
    SubEvent α ε → Subscriber α ε × Option (RecvOutcome α ε)
  | .recv => let r := receive s; (r.1, some r.2)
  | .dg d => (onDatagram s d, none)
  | .eosEv exc => (onEndOfStream s exc, none)
  | .setRes => (subSetFinalResult s, none)
  | .setExc e => (subSetFinalException s e, none)

/-- Runs a sequence of events, collecting the receive outcomes. -/
def runSub {α ε : Type} (s : Subscriber α ε) :
    List (SubEvent α ε) → Subscriber α ε × List (RecvOutcome α ε)
  | [] => (s, [])
  | ev :: evs =>
      let r := subStep s ev
      let rest := runSub r.1 evs
      (rest.1, r.2.toList ++ rest.2)

/-- The outcomes of n consecutive receive() calls with no engine event in
    between. -/
def recvTrace {α ε : Type} : Subscriber α ε → Nat → List (RecvOutcome α ε)
  | _, 0 => []
  | s, n + 1 =>
      let r := receive s
      r.2 :: recvTrace r.1 n

/-! ### The engine (sddp_socket.py, SddpSocket)

SddpSocket declares datagram_subscribers as a class attribute
(Set[SddpDatagramSubscriber] = set()) and __init__ never rebinds it on the
instance, so attribute lookup finds the single class-level set, shared by
every SddpSocket instance in the process.  The world model below keeps that
shared set next to the per-instance state. -/

/-- One SddpSocketBinding's closable resources: its transport and its
    low-level socket. -/
structure BindingSt : Type where
  transport_open : Bool
  sock_open : Bool
deriving DecidableEq, Repr

/-- Per-instance engine state: the final_result future and the socket
    bindings. -/
structure EngineSt (ε : Type) : Type where
  final : Option (Option ε)
  socket_bindings : List BindingSt
deriving Repr

/-- SddpSocket._close_all_transports. -/
def close_all_transports {ε : Type} (e : EngineSt ε) : EngineSt ε :=
  { e with socket_bindings := e.socket_bindings.map fun b => { b with transport_open := false } }

/-- SddpSocket._close_all_socks. -/
def close_all_socks {ε : Type} (e : EngineSt ε) : EngineSt ε :=
  { e with socket_bindings := e.socket_bindings.map fun b => { b with sock_open := false } }

/-- SddpSocket.set_final_result: when the future is pending, complete it
    with success and close all transports and sockets; otherwise do
    nothing. -/
def engineSetFinalResult {ε : Type} (e : EngineSt ε) : EngineSt ε :=
  match e.final with
  | some _ => e
  | none => close_all_socks (close_all_transports { e with final := some none })

/-- SddpSocket.set_final_exception. -/
def engineSetFinalException {ε : Type} (e : EngineSt ε) (exc : ε) : EngineSt ε :=
  match e.final with
  | some _ => e
  | none => close_all_socks (close_all_transports { e with final := some (some exc) })

/-- A call to one of the two completion methods. -/
inductive FinalEv (ε : Type) : Type
  | res
  | exc (e : ε)

/-- Applies one completion call. -/
def applyFinalEv {ε : Type} (e : EngineSt ε) : FinalEv ε → EngineSt ε
  | .res => engineSetFinalResult e
  | .exc x => engineSetFinalException e x

/-- A subscriber as the engine set holds it: its identity and the engine
    instance it was constructed for (SddpDatagramSubscriber.sddp_socket). -/
structure SubEntry : Type where
  sub_id : Nat
  owner : Nat
deriving DecidableEq, Repr

/-- The process-wide picture: every engine instance, plus the one
    class-level subscriber set they all share. -/
structure SddpWorld (ε : Type) : Type where
  class_subscribers : List SubEntry
  engines : List (EngineSt ε)

/-- SddpSocket.add_subscriber called on instance engine_idx: the method body
    is self.datagram_subscribers.add(subscriber), which mutates the shared
    class-level set; engine_idx plays no role and nothing checks
    final_result. -/
def world_add_subscriber {ε : Type} (w : SddpWorld ε) (_engine_idx : Nat)
    (sub : SubEntry) : SddpWorld ε :=
  { w with class_subscribers :=
      if sub ∈ w.class_subscribers then w.class_subscribers
      else w.class_subscribers ++ [sub] }

/-- SddpSocket.datagram_received on instance engine_idx: after decoding, the
    datagram is delivered to list(self.datagram_subscribers) - the shared
    class-level set.  Returns the subscribers whose on_datagram is
    invoked. -/
def world_datagram_received {ε : Type} (w : SddpWorld ε) (_engine_idx : Nat) :
    List SubEntry :=
  w.class_subscribers

/-! ### Statement-line matchers

server.py and client.py match statement lines with anchored Python regular
expressions.  Each pattern below is compiled to a sequential matcher; the
character classes involved (space, non-space, digit, a literal) are
pairwise disjoint at every boundary of the pattern, so regex backtracking
can produce no division other than the greedy one computed here. -/

/-- The longest run of the character c at the front, and the rest. -/
def spanChar (c : Char) (s : Bytes) : Bytes × Bytes :=
  (s.takeWhile (fun x => x = c), s.dropWhile (fun x => x = c))

/-- The longest run of characters other than c at the front, and the
    rest. -/
def spanNotChar (c : Char) (s : Bytes) : Bytes × Bytes :=
  (s.takeWhile (fun x => x ≠ c), s.dropWhile (fun x => x ≠ c))

/-- The longest run of decimal digits at the front, and the rest. -/
def spanDigits (s : Bytes) : Bytes × Bytes :=
  (s.takeWhile Char.isDigit, s.dropWhile Char.isDigit)

/-- Removes trailing spaces. -/
def rstripSpaces (s : Bytes) : Bytes :=
  (s.reverse.dropWhile (fun x => x = ' ')).reverse

/-- SddpServer._responder_req_statement_re, the pattern
    "^SEARCH +([^ ]+) (HTTP|SDDP)/([0-9]*)\\.([0-9]+) *$" (note the single
    literal space between the search pattern and the protocol token).
    Returns (pattern, protocol, major digits, minor digits); the major group
    may be empty. -/
def matchSearchStatement (s : Bytes) : Option (Bytes × Bytes × Bytes × Bytes) :=
  if s.take 6 = toB "SEARCH" then
    let sp := spanChar ' ' (s.drop 6)
    if sp.1 = [] then none
    else
      let pat := spanNotChar ' ' sp.2
      if pat.1 = [] then none
      else
        match pat.2 with
        | ' ' :: r2 =>
            let proto :=
              if r2.take 5 = toB "HTTP/" then some (toB "HTTP")
              else if r2.take 5 = toB "SDDP/" then some (toB "SDDP")
              else none
            match proto with
            | none => none
            | some p =>
                let mj := spanDigits (r2.drop 5)
                match mj.2 with
                | '.' :: r4 =>
                    let mn := spanDigits r4
                    if mn.1 = [] then none
                    else if mn.2.all (fun x => x = ' ') then some (pat.1, p, mj.1, mn.1)
                    else none
                | _ => none
        | _ => none
  else none

/-- SddpSearchRequest._response_statement_re, the pattern
    "^SDDP/([0-9]*)\\.([0-9]+) +([0-9]+) +(.*[^ ]) *$".  Returns
    (major digits, minor digits, status-code digits, status text); the major
    group may be empty, and the status text is the line's tail with trailing
    spaces stripped, required nonempty. -/
def matchResponseStatement (s : Bytes) : Option (Bytes × Bytes × Bytes × Bytes) :=
  if s.take 5 = toB "SDDP/" then
    let mj := spanDigits (s.drop 5)
    match mj.2 with
    | '.' :: r2 =>
        let mn := spanDigits r2
        if mn.1 = [] then none
        else
          let sp1 := spanChar ' ' mn.2
          if sp1.1 = [] then none
          else
            let code := spanDigits sp1.2
            if code.1 = [] then none
            else
              let sp2 := spanChar ' ' code.2
              if sp2.1 = [] then none
              else
                let status := rstripSpaces sp2.2
                if status = [] then none else some (mj.1, mn.1, code.1, status)
    | _ => none
  else none

/-! ### The server's responder step (server.py, _run_responder_task) -/

/-- host:port, as HostAndPort. -/
abbrev Addr := Bytes × Int

/-- The fields of a socket binding that the responder uses: the unicast
    address recorded for the interface the request arrived on. -/
structure RespBinding : Type where
  unicast_ip : Bytes
  unicast_port : Int
deriving DecidableEq, Repr

/-- The loop body of _run_responder_task for one received (binding, addr,
    datagram): when the statement line matches and both version groups parse
    as ints with major >= 1, copy the server's advertisement datagram, set
    the statement line to "<protocol>/<major>.<minor> 200 OK", fill in a
    From header from the binding's unicast address when the copy has none
    (membership is `'From' in response`, i.e. a decoded-header lookup), and
    send the result on the same binding to the source address.  Returns the
    sendto call made, or none when no response is sent. -/
def run_responder_step (advertise_datagram : SddpDatagram) (binding : RespBinding)
    (addr : Addr) (d : SddpDatagram) : Option (RespBinding × Addr × SddpDatagram) :=
  match matchSearchStatement d.statement_line with
  | none => none
  | some (_pat, proto, majS, minS) =>
      match pyParseInt majS, pyParseInt minS with
      | some mj, some mn =>
          if 1 ≤ mj then
            let resp1 := { advertise_datagram with
              statement_line :=
                proto ++ '/' :: (intToBytes mj ++ '.' :: (intToBytes mn ++ toB " 200 OK")) }
            let resp2 :=
              if ciContains resp1.headers (toB "From") then resp1
              else
                set_header resp1 (toB "From")
                  (some (.str (binding.unicast_ip ++ ':' :: intToBytes binding.unicast_port)))
            some (binding, addr, resp2)
          else none
      | _, _ => none

/-- The statement-line pattern as claim C7 words it: one or more spaces
    between every pair of adjacent tokens of
    SEARCH <pattern> (HTTP|SDDP)/<major>.<minor>, with major >= 1.
    This definition follows the claim's words (not the source) so the two
    can be compared. -/
def claimSearchMatches (s : Bytes) : Bool :=
  if s.take 6 = toB "SEARCH" then
    let sp := spanChar ' ' (s.drop 6)
    if sp.1 = [] then false
    else
      let pat := spanNotChar ' ' sp.2
      if pat.1 = [] then false
      else
        let sp2 := spanChar ' ' pat.2
        if sp2.1 = [] then false
        else
          let r2 := sp2.2
          if r2.take 5 = toB "HTTP/" ∨ r2.take 5 = toB "SDDP/" then
            let mj := spanDigits (r2.drop 5)
            match pyParseInt mj.1, mj.2 with
            | some vmj, '.' :: r4 =>
                let mn := spanDigits r4
                decide (1 ≤ vmj) && !mn.1.isEmpty && mn.2.all (fun x => x = ' ')
            | _, _ => false
          else false
  else false

/-! ### The client's search-response processing (client.py,
SddpSearchRequest.iter_responses) -/

/-- The response wrapper fields computed in the loop (the receive-time
    clock readings are carried by the event, not recomputed here). -/
structure RespInfo : Type where
  sddp_version : Bytes
  status_code : Int
  status : Bytes
  datagram : SddpDatagram
deriving DecidableEq, Repr

/-- The per-datagram part of the iter_responses loop body: match the
    response statement pattern, parse major/minor/status-code as ints,
    require major >= 1, drop non-200 responses unless
    include_error_responses, and apply the header filters (each filter
    name/value must equal the datagram's decoded header under the dict's
    case-insensitive lookup).  Returns the SddpResponseInfo to yield, if
    any. -/
def processResponseDatagram (include_error_responses : Bool)
    (filter_headers : Option (CIDict HeaderValue)) (d : SddpDatagram) :
    Option RespInfo :=
  match matchResponseStatement d.statement_line with
  | none => none
  | some (majS, minS, codeS, status) =>
      match pyParseInt majS, pyParseInt minS with
      | some mj, some mn =>
          if 1 ≤ mj then
            match pyParseInt codeS with
            | some code =>
                if include_error_responses ∨ code = 200 then
                  let keep :=
                    match filter_headers with
                    | none => true
                    | some ft => ft.all fun e => ciLookup d.headers e.1 == some e.2
                  if keep then
                    some { sddp_version := intToBytes mj ++ '.' :: intToBytes mn
                           status_code := code
                           status := status
                           datagram := d }
                  else none
                else none
            | none => none
          else none
      | _, _ => none

/-- One receive completion inside iter_responses: the monotonic time at
    which the awaited receive() returns, and its value (a datagram, or none
    for end-of-stream).  The monotonic clock is modelled over the integers -
    the claims only use its ordering. -/
structure RespEvent : Type where
  time : Int
  payload : Option SddpDatagram

/-- SddpSearchRequest.iter_responses over a schedule of receive
    completions.  Each loop iteration: stop when max_responses > 0 yields
    have been produced; recompute remaining_time = end_time - now and stop
    when it is not positive; await receive with that timeout, so an arrival
    after end_time is a TimeoutError and stops; a None receive
    (end-of-stream) stops; otherwise the datagram is processed and possibly
    yielded with the arrival time.  n and now thread the yield count and the
    clock. -/
def iterResponsesAux (include_error_responses : Bool)
    (filter_headers : Option (CIDict HeaderValue)) (max_responses : Int)
    (end_time : Int) :
    List RespEvent → Int → Int → List (Int × RespInfo)
  | [], _, _ => []
  | ev :: rest, n, now =>
      if max_responses > 0 ∧ n ≥ max_responses then []
      else if end_time - now ≤ 0 then []
      else if ev.time > end_time then []
      else
        match ev.payload with
        | none => []
        | some d =>
            match processResponseDatagram include_error_responses filter_headers d with
            | some info =>
                (ev.time, info) :: iterResponsesAux include_error_responses filter_headers
                  max_responses end_time rest (n + 1) ev.time
            | none =>
                iterResponsesAux include_error_responses filter_headers
                  max_responses end_time rest n ev.time

/-- The iteration from its start: no yields so far, clock at start_time
    (end_time was recorded as start of search + response_wait_time). -/
def iter_responses (include_error_responses : Bool)
    (filter_headers : Option (CIDict HeaderValue)) (max_responses : Int)
    (end_time : Int) (events : List RespEvent) (start_time : Int) :
    List (Int × RespInfo) :=
  iterResponsesAux include_error_responses filter_headers max_responses end_time
    events 0 start_time

/-! ### hdr_from (sddp_datagram.py) and constants.py -/

/-- constants.SDDP_PORT. -/
def SDDP_PORT : Int := 1902

/-- Python str.split(sep, 1): the text before the first colon, and the text
    after it when a colon exists. -/
def splitOnceAtColon : Bytes → Bytes × Option Bytes
  | [] => ([], none)
  | c :: rest =>
      if c = ':' then ([], some rest)
      else
        let p := splitOnceAtColon rest
        (c :: p.1, p.2)

/-- SddpDatagram.hdr_from: the decoded From header as (host, port).  A
    missing or non-string decoded value gives None; without a colon the port
    defaults to SDDP_PORT; otherwise the text after the first colon must
    parse as an int. -/
def hdr_from (d : SddpDatagram) : Option (Bytes × Int) :=
  match ciLookup d.headers (toB "From") with
  | some (.str s) =>
      let p := splitOnceAtColon s
      match p.2 with
      | none => some (p.1, SDDP_PORT)
      | some rest =>
          match pyParseInt rest with
          | some port => some (p.1, port)
          | none => none
  | _ => none

/-! ### Shapes used by the round-trip analysis -/

/-- One serialized header line without its terminator. -/
def headerLine (e : Bytes × Bytes) : Bytes := e.1 ++ ':' :: ' ' :: e.2

/-- Lines each followed by CRLF. -/
def joinCRLF (L : List Bytes) : Bytes := L.flatMap (fun l => l ++ ['\r', '\n'])

/-- Lines separated (not terminated) by CRLF. -/
def innerCRLF : List Bytes → Bytes
  | [] => []
  | [l] => l
  | l :: L => l ++ '\r' :: '\n' :: innerCRLF L

/-- A nonempty line free of CR and LF, as the serializer emits between its
    CRLF terminators. -/
def cleanLine (l : Bytes) : Prop :=
  l ≠ [] ∧ ∀ c ∈ l, c ≠ '\n' ∧ c ≠ '\r'

/-- A statement line the serializer can round-trip: nonempty and free of
    LF. -/
def goodStmt (s : Bytes) : Prop := s ≠ [] ∧ '\n' ∉ s

/-- A header name the serializer can round-trip: nonempty, free of colon,
    CR, LF and whitespace. -/
def goodName (k : Bytes) : Prop :=
  k ≠ [] ∧ ∀ c ∈ k, c ≠ ':' ∧ c ≠ '\n' ∧ c ≠ '\r' ∧ c ≠ ' ' ∧ c ≠ '\t'

/-- A raw header value the serializer can round-trip: free of CR and LF and
    not starting with the whitespace the parser strips. -/
def goodValue (v : Bytes) : Prop :=
  (∀ c ∈ v, c ≠ '\n' ∧ c ≠ '\r') ∧ ∀ c, v.head? = some c → c ≠ ' ' ∧ c ≠ '\t'

instance (s : Bytes) : Decidable (goodStmt s) :=
  inferInstanceAs (Decidable (s ≠ [] ∧ '\n' ∉ s))

instance (k : Bytes) : Decidable (goodName k) :=
  inferInstanceAs (Decidable
    (k ≠ [] ∧ ∀ c ∈ k, c ≠ ':' ∧ c ≠ '\n' ∧ c ≠ '\r' ∧ c ≠ ' ' ∧ c ≠ '\t'))

instance (v : Bytes) : Decidable (goodValue v) :=
  inferInstanceAs (Decidable
    ((∀ c ∈ v, c ≠ '\n' ∧ c ≠ '\r') ∧ ∀ c, v.head? = some c → c ≠ ' ' ∧ c ≠ '\t'))

instance {α : Type} (d : CIDict α) : Decidable (ciWF d) :=
  inferInstanceAs (Decidable ((d.map fun e : Bytes × α => lowerB e.1).Nodup))

/-! ### Concrete values used by witnesses and counterexamples -/

/-- A datagram with a body but no headers. -/
def dgBodyNoHeaders : SddpDatagram :=
  mkSddpDatagram (toB "NOTIFY ALIVE SDDP/1.0") [] (toB "hello")

/-- What the parser reconstructs from dgBodyNoHeaders' serialization: the
    body has been lost. -/
def dgBodyNoHeadersReparsed : SddpDatagram :=
  { statement_line := toB "NOTIFY ALIVE SDDP/1.0", raw_headers := [], headers := [],
    body := [] }

/-- A round-trippable response datagram for witnesses. -/
def dgRoundtrip : SddpDatagram :=
  mkSddpDatagram (toB "SDDP/1.0 200 OK")
    [(toB "Max-Age", some (.int 1800)), (toB "Host", some (.str (toB "h:1902")))] []

/-- A datagram whose decoded header A is the integer 1. -/
def dgHeaderA : SddpDatagram :=
  mkSddpDatagram (toB "NOTIFY ALIVE SDDP/1.0") [(toB "A", some (.int 1))] []

/-- A subscriber holding one tuple and a pending error end-of-stream. -/
def subDrain : Subscriber Nat String :=
  { queue := [some 7, none], max_queue_size := 1000, final := none, eos := true,
    eos_exc := some "transport error" }

/-- A subscriber whose final_result is already completed with success. -/
def subDone : Subscriber Nat String :=
  { queue := [some 3], max_queue_size := 1000, final := some none, eos := true,
    eos_exc := none }

/-- Two engine instances in one process, no subscribers yet. -/
def worldTwoEngines : SddpWorld Unit :=
  { class_subscribers := [], engines := [⟨none, []⟩, ⟨none, []⟩] }

/-- One engine whose final_result is already set. -/
def worldDoneEngine : SddpWorld Unit :=
  { class_subscribers := [], engines := [⟨some none, []⟩] }

/-- A pending engine with one fully open binding. -/
def enginePending : EngineSt Unit :=
  { final := none, socket_bindings := [⟨true, true⟩] }

/-- An engine already completed with success. -/
def engineDone : EngineSt Unit :=
  { final := some none, socket_bindings := [⟨false, false⟩] }

/-- A server advertisement datagram without a From header. -/
def advNoFrom : SddpDatagram :=
  mkSddpDatagram (toB "NOTIFY ALIVE SDDP/1.0")
    [(toB "Max-Age", some (.int 1800)), (toB "Type", some (.str (toB "acme:x")))] []

/-- A server advertisement datagram carrying its own From header. -/
def advWithFrom : SddpDatagram :=
  mkSddpDatagram (toB "NOTIFY ALIVE SDDP/1.0")
    [(toB "From", some (.str (toB "1.2.3.4:1902")))] []

/-- A binding for the responder examples. -/
def bindingA : RespBinding := { unicast_ip := toB "10.0.0.5", unicast_port := 1902 }

/-- A source address for the responder examples. -/
def addrA : Addr := (toB "10.0.0.9", 4321)

/-- A SEARCH datagram with two spaces between the pattern and the protocol
    token. -/
def searchTwoSpaces : SddpDatagram :=
  mkSddpDatagram (toB "SEARCH *  SDDP/1.0") [] []

/-- A SEARCH datagram in the exact shape the responder accepts. -/
def searchOneSpace : SddpDatagram :=
  mkSddpDatagram (toB "SEARCH * SDDP/1.0") [] []

/-- A 200 response whose decoded header X is the string "123". -/
def respStr123 : SddpDatagram :=
  mkSddpDatagram (toB "SDDP/1.0 200 OK") [(toB "X", some (.str (toB "123")))] []

/-- A datagram whose decoded From header is the string myhost, with no
    colon. -/
def dgFromNoColon : SddpDatagram :=
  mkSddpDatagram (toB "NOTIFY ALIVE SDDP/1.0")
    [(toB "From", some (.str (toB "myhost")))] []

/-- A datagram whose decoded From header has a non-integer port text. -/
def dgFromBadPort : SddpDatagram :=
  mkSddpDatagram (toB "NOTIFY ALIVE SDDP/1.0")
    [(toB "From", some (.str (toB "h:x")))] []

/-- Two valid response arrivals inside the deadline, for the max_responses
    witness. -/
def eventsTwoResponses : List RespEvent :=
  [{ time := 1, payload := some respStr123 }, { time := 2, payload := some respStr123 }]

/-! ## Shared lemmas -/

theorem ciLookup_ciSet {α : Type} (d : CIDict α) (k : Bytes) (v : α) (k2 : Bytes) :
    ciLookup (ciSet d k v) k2
      = if lowerB k = lowerB k2 then some v else ciLookup d k2 := by
  induction d with
  | nil => simp [ciSet, ciLookup]
  | cons e rest ih =>
      obtain ⟨k0, v0⟩ := e
      by_cases h0 : lowerB k0 = lowerB k
      · simp only [ciSet, if_pos h0, ciLookup]
        by_cases h2 : lowerB k = lowerB k2
        · simp [h2]
        · have h02 : ¬ lowerB k0 = lowerB k2 := fun hk => h2 (h0 ▸ hk)
          simp [h2, h02]
      · simp only [ciSet, if_neg h0, ciLookup]
        by_cases h2 : lowerB k0 = lowerB k2
        · have : ¬ lowerB k = lowerB k2 := fun hk => h0 (h2.trans hk.symm)
          simp [h2, this]
        · simp [h2, ih]

theorem applyFinalEv_of_done {ε : Type} {e : EngineSt ε} {x : Option ε}
    (h : e.final = some x) (ev : FinalEv ε) : applyFinalEv e ev = e := by
  cases ev <;> simp [applyFinalEv, engineSetFinalResult, engineSetFinalException, h]

/-! ## C5 -/

/-- C5: the engine's final_result transitions at most once: once
    set_final_result or set_final_exception has completed the future (final
    = some x), any later sequence of calls to either leaves the engine state
    (stored outcome included) unchanged. -/
theorem c5_final_result_at_most_once {ε : Type} (e : EngineSt ε) (x : Option ε)
    (h : e.final = some x) :
    ∀ evs : List (FinalEv ε), evs.foldl applyFinalEv e = e := by
  intro evs
  induction evs with
  | nil => rfl
  | cons ev evs ih => rw [List.foldl_cons, applyFinalEv_of_done h, ih]

theorem c5_witness :
    engineDone.final = some none ∧
      [FinalEv.res, FinalEv.exc ()].foldl applyFinalEv engineDone = engineDone :=
  ⟨rfl, c5_final_result_at_most_once engineDone none rfl _⟩

/-! ## C6 -/

/-- C6 counterexample: on an engine whose final_result is already set (the
    only engine of worldDoneEngine has final = some none), add_subscriber
    still registers the new subscriber, so the claim "add_subscriber after
    final_result is set does not register a new subscriber" fails at this
    input. -/
theorem c6_counterexample_registration :
    worldDoneEngine.engines = [{ final := some none, socket_bindings := [] }] ∧
    (world_add_subscriber worldDoneEngine 0 { sub_id := 7, owner := 0 }).class_subscribers
      = [{ sub_id := 7, owner := 0 }] :=
  ⟨rfl, rfl⟩

/-- C6 amended: once final_result is set, all bindings are closed - the
    completing call closes every binding's transport and socket; but
    add_subscriber is not guarded by final_result and still registers new
    subscribers. -/
theorem c6_bindings_closed_on_final {ε : Type} (e : EngineSt ε) (h : e.final = none) :
    ((engineSetFinalResult e).socket_bindings.all
        fun b => !b.transport_open && !b.sock_open) = true ∧
    ∀ exc : ε,
      ((engineSetFinalException e exc).socket_bindings.all
        fun b => !b.transport_open && !b.sock_open) = true := by
  constructor
  · simp [engineSetFinalResult, h, close_all_socks, close_all_transports, List.all_eq_true]
  · intro exc
    simp [engineSetFinalException, h, close_all_socks, close_all_transports,
      List.all_eq_true]

theorem c6_witness :
    ((engineSetFinalResult enginePending).socket_bindings.all
        fun b => !b.transport_open && !b.sock_open) = true ∧
    ((engineSetFinalException enginePending ()).socket_bindings.all
        fun b => !b.transport_open && !b.sock_open) = true :=
  ⟨(c6_bindings_closed_on_final enginePending rfl).1,
   (c6_bindings_closed_on_final enginePending rfl).2 ()⟩

/-! ## C3 -/

/-- C3: datagram_subscribers is one class-level set shared by every
    SddpSocket instance, so a datagram received on engine 1 is delivered to
    the subscriber that was added on engine 0: the delivery list of
    world_datagram_received on engine 1 contains the entry whose owner is
    engine 0, contradicting the claim that delivery stays within the
    instance the subscriber was added to. -/
theorem c3_cross_instance_delivery :
    world_datagram_received
        (world_add_subscriber worldTwoEngines 0 { sub_id := 1, owner := 0 }) 1
      = [{ sub_id := 1, owner := 0 }] ∧
    (1 : Nat) ≠ 0 :=
  ⟨rfl, one_ne_zero⟩

/-! ## C4 -/

/-- C4: assigning to the raw_headers property clears only the raw dict and
    re-derives decoded entries only for the supplied names, so a stale
    decoded key survives with no raw counterpart: after set-header A=1 and
    raw_headers = {}, the decoded dict still maps A to 1 while the raw dict
    is empty, violating decoded/raw coherence. -/
theorem c4_raw_assign_breaks_coherence :
    ciLookup (applyHeaderOps dgHeaderA [HeaderOp.assignRaw (some [])]).headers (toB "A")
        = some (HeaderValue.int 1) ∧
    ciLookup (applyHeaderOps dgHeaderA [HeaderOp.assignRaw (some [])]).raw_headers (toB "A")
        = none ∧
    ¬ coherent (applyHeaderOps dgHeaderA [HeaderOp.assignRaw (some [])]) := by
  refine ⟨by decide, by decide, fun h => ?_⟩
  obtain ⟨r, hr, _⟩ := h (toB "A") (HeaderValue.int 1) (by decide)
  rw [show ciLookup (applyHeaderOps dgHeaderA [HeaderOp.assignRaw (some [])]).raw_headers
      (toB "A") = none from by decide] at hr
  exact Option.noConfusion hr

/-! ## C10 -/

theorem splitOnceAtColon_no_colon (s : Bytes) (h : ':' ∉ s) :
    splitOnceAtColon s = (s, none) := by
  induction s with
  | nil => rfl
  | cons c rest ih =>
      have hc : ¬ c = ':' := fun hc => h (hc ▸ List.mem_cons_self c rest)
      have hr : ':' ∉ rest := fun hm => h (List.mem_cons_of_mem c hm)
      simp [splitOnceAtColon, hc, ih hr]

theorem splitOnceAtColon_append (pre post : Bytes) (h : ':' ∉ pre) :
    splitOnceAtColon (pre ++ ':' :: post) = (pre, some post) := by
  induction pre with
  | nil => simp [splitOnceAtColon]
  | cons c rest ih =>
      have hc : ¬ c = ':' := fun hc => h (hc ▸ List.mem_cons_self c rest)
      have hr : ':' ∉ rest := fun hm => h (List.mem_cons_of_mem c hm)
      simp [splitOnceAtColon, hc, ih hr]

/-- C10: hdr_from of a datagram whose decoded From value is a string
    without a colon is that string with the port defaulted to 1902
    (SDDP_PORT); and hdr_from is None when the decoded From value is absent,
    is not a string, or carries a port text that does not parse as an
    integer. -/
theorem c10_hdr_from (d : SddpDatagram) :
    (∀ s : Bytes, ciLookup d.headers (toB "From") = some (.str s) → ':' ∉ s →
        hdr_from d = some (s, 1902)) ∧
    (ciLookup d.headers (toB "From") = none → hdr_from d = none) ∧
    (∀ n : Int, ciLookup d.headers (toB "From") = some (.int n) → hdr_from d = none) ∧
    (∀ pre post : Bytes,
        ciLookup d.headers (toB "From") = some (.str (pre ++ ':' :: post)) →
        ':' ∉ pre → pyParseInt post = none → hdr_from d = none) := by
  refine ⟨?_, ?_, ?_, ?_⟩
  · intro s hs hnc
    simp [hdr_from, hs, splitOnceAtColon_no_colon s hnc, SDDP_PORT]
  · intro h
    simp [hdr_from, h]
  · intro n h
    simp [hdr_from, h]
  · intro pre post h hnc hp
    simp [hdr_from, h, splitOnceAtColon_append pre post hnc, hp]

theorem c10_witness :
    hdr_from dgFromNoColon = some (toB "myhost", 1902) ∧ hdr_from dgFromBadPort = none :=
  ⟨(c10_hdr_from dgFromNoColon).1 (toB "myhost") (by decide) (by decide),
   (c10_hdr_from dgFromBadPort).2.2.2 (toB "h") (toB "x") (by decide) (by decide)
     (by decide)⟩

/-! ## C8 -/

/-- C8: a response datagram whose statement line matches the response
    pattern with an integer major >= 1 and an integer status code is yielded
    by the search iterator exactly when its status code is 200 or
    include_error_responses is set, and every filter name/value pair equals
    the datagram's decoded header under the dict's case-insensitive lookup;
    decoded values are compared exactly, so an integer filter does not match
    a string-decoded header. -/
theorem c8_response_filtering (incl : Bool) (ft : Option (CIDict HeaderValue))
    (d : SddpDatagram) (majS minS codeS status : Bytes) (mj mn code : Int)
    (hm : matchResponseStatement d.statement_line = some (majS, minS, codeS, status))
    (hmj : pyParseInt majS = some mj) (hmn : pyParseInt minS = some mn)
    (h1 : 1 ≤ mj) (hcode : pyParseInt codeS = some code) :
    (processResponseDatagram incl ft d).isSome = true ↔
      ((code = 200 ∨ incl = true) ∧
        ((ft.getD []).all fun p => ciLookup d.headers p.1 == some p.2) = true) := by
  cases incl with
  | true =>
      cases ft with
      | none => simp [processResponseDatagram, hm, hmj, hmn, hcode, h1]
      | some l =>
          by_cases hk : (l.all fun p => ciLookup d.headers p.1 == some p.2) = true
          · simp [processResponseDatagram, hm, hmj, hmn, hcode, h1, hk]
          · simp [processResponseDatagram, hm, hmj, hmn, hcode, h1, hk]
  | false =>
      by_cases hc : code = 200
      · cases ft with
        | none => simp [processResponseDatagram, hm, hmj, hmn, hcode, h1, hc]
        | some l =>
            by_cases hk : (l.all fun p => ciLookup d.headers p.1 == some p.2) = true
            · simp [processResponseDatagram, hm, hmj, hmn, hcode, h1, hc, hk]
            · simp [processResponseDatagram, hm, hmj, hmn, hcode, h1, hc, hk]
      · cases ft with
        | none => simp [processResponseDatagram, hm, hmj, hmn, hcode, h1, hc]
        | some l => simp [processResponseDatagram, hm, hmj, hmn, hcode, h1, hc]

theorem c8_witness :
    (processResponseDatagram false (some [(toB "X", HeaderValue.int 123)]) respStr123).isSome
        = false ∧
    ((processResponseDatagram false
          (some [(toB "X", HeaderValue.int 123)]) respStr123).isSome = true ↔
      (((200 : Int) = 200 ∨ false = true) ∧
        ([(toB "X", HeaderValue.int 123)].all
            fun p => ciLookup respStr123.headers p.1 == some p.2) = true)) :=
  ⟨by decide,
   c8_response_filtering false (some [(toB "X", HeaderValue.int 123)]) respStr123
     (toB "1") (toB "0") (toB "200") (toB "OK") 1 0 200
     (by decide) (by decide) (by decide) (by decide) (by decide)⟩

/-! ## C9 -/

theorem iterResponsesAux_length_le (incl : Bool) (ft : Option (CIDict HeaderValue))
    (maxR endTime : Int) :
    ∀ (evs : List RespEvent) (n now : Int), 0 < maxR →
      (iterResponsesAux incl ft maxR endTime evs n now).length ≤ (maxR - n).toNat := by
  intro evs
  induction evs with
  | nil => intro n now _; simp [iterResponsesAux]
  | cons ev rest ih =>
      intro n now hpos
      by_cases h1 : maxR > 0 ∧ n ≥ maxR
      · simp [iterResponsesAux, h1]
      · have hn : n < maxR := by
          rcases not_and_or.mp h1 with h | h
          · exact absurd hpos h
          · exact lt_of_not_le h
        by_cases h2 : endTime - now ≤ 0
        · simp [iterResponsesAux, h1, h2]
        · by_cases h3 : ev.time > endTime
          · simp [iterResponsesAux, h1, h2, h3]
          · cases hp : ev.payload with
            | none => simp [iterResponsesAux, h1, h2, h3, hp]
            | some d =>
                cases hq : processResponseDatagram incl ft d with
                | none =>
                    simp only [iterResponsesAux, if_neg h1, if_neg h2, if_neg h3, hp, hq]
                    exact ih n ev.time hpos
                | some info =>
                    simp only [iterResponsesAux, if_neg h1, if_neg h2, if_neg h3, hp, hq,
                      List.length_cons]
                    have := ih (n + 1) ev.time hpos
                    omega

theorem iterResponsesAux_mem_le (incl : Bool) (ft : Option (CIDict HeaderValue))
    (maxR endTime : Int) :
    ∀ (evs : List RespEvent) (n now t : Int) (info : RespInfo),
      (t, info) ∈ iterResponsesAux incl ft maxR endTime evs n now → t ≤ endTime := by
  intro evs
  induction evs with
  | nil => intro n now t info h; simp [iterResponsesAux] at h
  | cons ev rest ih =>
      intro n now t info h
      by_cases h1 : maxR > 0 ∧ n ≥ maxR
      · simp [iterResponsesAux, h1] at h
      · by_cases h2 : endTime - now ≤ 0
        · simp [iterResponsesAux, h1, h2] at h
        · by_cases h3 : ev.time > endTime
          · simp [iterResponsesAux, h1, h2, h3] at h
          · cases hp : ev.payload with
            | none => simp [iterResponsesAux, h1, h2, h3, hp] at h
            | some d =>
                cases hq : processResponseDatagram incl ft d with
                | none =>
                    simp only [iterResponsesAux, if_neg h1, if_neg h2, if_neg h3, hp, hq] at h
                    exact ih n ev.time t info h
                | some info2 =>
                    simp only [iterResponsesAux, if_neg h1, if_neg h2, if_neg h3, hp, hq,
                      List.mem_cons] at h
                    rcases h with h | h
                    · have : t = ev.time := congrArg Prod.fst h
                      omega
                    · exact ih (n + 1) ev.time t info h

theorem iterResponsesAux_eos_cut (incl : Bool) (ft : Option (CIDict HeaderValue))
    (maxR endTime : Int) :
    ∀ (evs1 : List RespEvent) (t : Int) (evs2 : List RespEvent) (n now : Int),
      iterResponsesAux incl ft maxR endTime
          (evs1 ++ { time := t, payload := none } :: evs2) n now
        = iterResponsesAux incl ft maxR endTime
            (evs1 ++ [{ time := t, payload := none }]) n now := by
  intro evs1
  induction evs1 with
  | nil =>
      intro t evs2 n now
      by_cases h1 : maxR > 0 ∧ n ≥ maxR
      · simp [iterResponsesAux, h1]
      · by_cases h2 : endTime - now ≤ 0
        · simp [iterResponsesAux, h1, h2]
        · by_cases h3 : t > endTime
          · simp [iterResponsesAux, h1, h2, h3]
          · simp [iterResponsesAux, h1, h2, h3]
  | cons ev rest ih =>
      intro t evs2 n now
      by_cases h1 : maxR > 0 ∧ n ≥ maxR
      · simp [iterResponsesAux, h1]
      · by_cases h2 : endTime - now ≤ 0
        · simp [iterResponsesAux, h1, h2]
        · by_cases h3 : ev.time > endTime
          · simp [iterResponsesAux, h1, h2, h3]
          · cases hp : ev.payload with
            | none => simp [iterResponsesAux, h1, h2, h3, hp]
            | some d =>
                cases hq : processResponseDatagram incl ft d with
                | none =>
                    simp only [List.cons_append, iterResponsesAux, if_neg h1, if_neg h2,
                      if_neg h3, hp, hq]
                    exact ih t evs2 n ev.time
                | some info =>
                    simp only [List.cons_append, iterResponsesAux, if_neg h1, if_neg h2,
                      if_neg h3, hp, hq]
                    exact congrArg (List.cons (ev.time, info)) (ih t evs2 (n + 1) ev.time)

/-- C9: the search-response iteration terminates on any of the claim's
    three conditions and on nothing later: when max_responses > 0 it yields
    at most max_responses responses, every yielded response arrived no later
    than end_time (an arrival after end_time is a TimeoutError that ends the
    iteration), and the iteration's output is unchanged by anything
    scheduled after an end-of-stream receive (the iteration stops there). -/
theorem c9_iteration_terminates (incl : Bool) (ft : Option (CIDict HeaderValue))
    (maxR endTime start : Int) (events : List RespEvent) :
    (0 < maxR → (iter_responses incl ft maxR endTime events start).length ≤ maxR.toNat) ∧
    (∀ t info, (t, info) ∈ iter_responses incl ft maxR endTime events start →
        t ≤ endTime) ∧
    (∀ (evs1 : List RespEvent) (t : Int) (evs2 : List RespEvent),
        events = evs1 ++ { time := t, payload := none } :: evs2 →
        iter_responses incl ft maxR endTime events start
          = iter_responses incl ft maxR endTime
              (evs1 ++ [{ time := t, payload := none }]) start) := by
  refine ⟨?_, ?_, ?_⟩
  · intro hpos
    have := iterResponsesAux_length_le incl ft maxR endTime events 0 start hpos
    simpa [iter_responses] using this
  · intro t info h
    exact iterResponsesAux_mem_le incl ft maxR endTime events 0 start t info h
  · intro evs1 t evs2 hev
    rw [iter_responses, iter_responses, hev]
    exact iterResponsesAux_eos_cut incl ft maxR endTime evs1 t evs2 0 start

theorem c9_witness :
    (iter_responses false none 1 10 eventsTwoResponses 0).length ≤ (1 : Int).toNat :=
  (c9_iteration_terminates false none 1 10 0 eventsTwoResponses).1 (by decide)

/-! ## C2 -/

theorem subSetFinalResult_final {α ε : Type} (s : Subscriber α ε) (h : s.final = none) :
    (subSetFinalResult s).final = some none := by
  simp only [subSetFinalResult, h, queuePut]
  split <;> rfl

theorem subSetFinalException_final {α ε : Type} (s : Subscriber α ε) (e : ε)
    (h : s.final = none) : (subSetFinalException s e).final = some (some e) := by
  simp only [subSetFinalException, h, queuePut]
  split <;> rfl

theorem receive_final_done {α ε : Type} (s : Subscriber α ε) {x : Option ε}
    (h : s.final = some x) :
    receive s = (s, match x with
                    | none => RecvOutcome.eosNone
                    | some e => RecvOutcome.raised e) := by
  cases x <;> simp [receive, h]

theorem recvTrace_succ {α ε : Type} (s : Subscriber α ε) (n : Nat) :
    recvTrace s (n + 1) = (receive s).2 :: recvTrace (receive s).1 n := rfl

/-- A straight run of receive() calls over a subscriber that is still
    pending but already end-of-stream: the queued tuples come out in order,
    then the terminal outcome determined by eos_exc, exactly once. -/
theorem recvTrace_drain {α ε : Type} :
    ∀ (ds : List α) (m : Nat) (s : Subscriber α ε),
      s.final = none → s.eos = true →
      s.queue = ds.map some ++ List.replicate m none →
      recvTrace s (ds.length + 1)
        = ds.map RecvOutcome.item ++
            [match s.eos_exc with
             | some e => RecvOutcome.raised e
             | none => RecvOutcome.eosNone] := by
  intro ds
  induction ds with
  | nil =>
      intro m s hf he hq
      cases m with
      | zero =>
          cases hexc : s.eos_exc <;>
            simp [recvTrace, receive, hf, he, hq, hexc]
      | succ m2 =>
          cases hexc : s.eos_exc <;>
            simp [recvTrace, receive, hf, he, hq, hexc, List.replicate_succ,
              subSetFinalResult, subSetFinalException, queuePut]
  | cons d ds ih =>
      intro m s hf he hq
      have step :
          receive s = ({ s with queue := ds.map some ++ List.replicate m none },
            RecvOutcome.item d) := by
        simp [receive, hf, he, hq]
      rw [recvTrace_succ, step]
      simp only [List.length_cons]
      rw [ih m { s with queue := ds.map some ++ List.replicate m none } hf he rfl]
      cases hexc : s.eos_exc <;> simp [hexc]

/-- After final_result has completed with success, every later event leaves
    the subscriber unchanged and every later receive returns None. -/
theorem runSub_final_done {α ε : Type} :
    ∀ (evs : List (SubEvent α ε)) (s : Subscriber α ε), s.final = some none →
      (runSub s evs).1 = s ∧ ∀ o ∈ (runSub s evs).2, o = RecvOutcome.eosNone := by
  intro evs
  induction evs with
  | nil => intro s h; exact ⟨rfl, by simp [runSub]⟩
  | cons ev evs ih =>
      intro s h
      cases ev with
      | recv =>
          have hstep : subStep s (SubEvent.recv : SubEvent α ε)
              = (s, some RecvOutcome.eosNone) := by
            simp [subStep, receive, h]
          refine ⟨by simp only [runSub, hstep]; exact (ih s h).1, ?_⟩
          intro o ho
          simp only [runSub, hstep, Option.toList] at ho
          rcases List.mem_cons.mp ho with rfl | hmem
          · rfl
          · exact (ih s h).2 o hmem
      | dg d =>
          have hstep : subStep s (SubEvent.dg d) = (s, none) := by
            simp [subStep, onDatagram, h]
          refine ⟨by simp only [runSub, hstep]; exact (ih s h).1, ?_⟩
          intro o ho
          simp only [runSub, hstep, Option.toList, List.nil_append] at ho
          exact (ih s h).2 o ho
      | eosEv exc =>
          have hstep : subStep s (SubEvent.eosEv exc) = (s, none) := by
            simp [subStep, onEndOfStream, h]
          refine ⟨by simp only [runSub, hstep]; exact (ih s h).1, ?_⟩
          intro o ho
          simp only [runSub, hstep, Option.toList, List.nil_append] at ho
          exact (ih s h).2 o ho
      | setRes =>
          have hstep : subStep s (SubEvent.setRes : SubEvent α ε) = (s, none) := by
            simp [subStep, subSetFinalResult, h]
          refine ⟨by simp only [runSub, hstep]; exact (ih s h).1, ?_⟩
          intro o ho
          simp only [runSub, hstep, Option.toList, List.nil_append] at ho
          exact (ih s h).2 o ho
      | setExc e =>
          have hstep : subStep s (SubEvent.setExc e) = (s, none) := by
            simp [subStep, subSetFinalException, h]
          refine ⟨by simp only [runSub, hstep]; exact (ih s h).1, ?_⟩
          intro o ho
          simp only [runSub, hstep, Option.toList, List.nil_append] at ho
          exact (ih s h).2 o ho

/-- A receive() that returned None has completed final_result with
    success. -/
theorem receive_eosNone_completes {α ε : Type} (s : Subscriber α ε)
    (h : (receive s).2 = RecvOutcome.eosNone) : (receive s).1.final = some none := by
  cases hf : s.final with
  | some x =>
      cases x with
      | none => simp [receive, hf]
      | some e => simp [receive, hf] at h
  | none =>
      cases heos : s.eos with
      | true =>
          cases hqueue : s.queue with
          | nil =>
              cases hexc : s.eos_exc with
              | none =>
                  simp only [receive, hf, heos, hqueue, List.isEmpty_nil, and_self,
                    if_true, hexc]
                  exact subSetFinalResult_final s hf
              | some e => simp [receive, hf, heos, hqueue, hexc] at h
          | cons q0 rest =>
              cases q0 with
              | some d => simp [receive, hf, heos, hqueue] at h
              | none =>
                  cases hexc : s.eos_exc with
                  | none =>
                      simp only [receive, hf, heos, hqueue, List.isEmpty_cons,
                        Bool.false_eq_true, and_false, if_false, hexc]
                      exact subSetFinalResult_final _ rfl
                  | some e => simp [receive, hf, heos, hqueue, hexc] at h
      | false =>
          cases hqueue : s.queue with
          | nil => simp [receive, hf, heos, hqueue] at h
          | cons q0 rest =>
              cases q0 with
              | some d => simp [receive, hf, heos, hqueue] at h
              | none =>
                  cases hexc : s.eos_exc with
                  | none =>
                      simp only [receive, hf, heos, hqueue, List.isEmpty_cons,
                        Bool.false_eq_true, false_and, if_false, hexc]
                      exact subSetFinalResult_final _ rfl
                  | some e => simp [receive, hf, heos, hqueue, hexc] at h

/-- C2: a subscriber drains every datagram already queued, then surfaces
    the terminal outcome (the error when the engine signalled one, otherwise
    end-of-stream) exactly once in that run; a receive that returned None
    has completed final_result with success, and from then on the subscriber
    state never changes and every receive returns None again - in
    particular no datagram tuple is ever returned after end-of-stream,
    whatever engine-side events interleave. -/
theorem c2_end_of_stream_semantics {α ε : Type} :
    (∀ (s : Subscriber α ε) (ds : List α) (m : Nat) (e : ε),
        s.final = none → s.eos = true → s.eos_exc = some e →
        s.queue = ds.map some ++ List.replicate m none →
        recvTrace s (ds.length + 1)
          = ds.map RecvOutcome.item ++ [RecvOutcome.raised e]) ∧
    (∀ (s : Subscriber α ε) (ds : List α) (m : Nat),
        s.final = none → s.eos = true → s.eos_exc = none →
        s.queue = ds.map some ++ List.replicate m none →
        recvTrace s (ds.length + 1)
          = ds.map RecvOutcome.item ++ [RecvOutcome.eosNone]) ∧
    (∀ s : Subscriber α ε, (receive s).2 = RecvOutcome.eosNone →
        (receive s).1.final = some none) ∧
    (∀ (s : Subscriber α ε) (evs : List (SubEvent α ε)), s.final = some none →
        ∀ o ∈ (runSub s evs).2, o = RecvOutcome.eosNone) := by
  refine ⟨?_, ?_, ?_, ?_⟩
  · intro s ds m e hf he hexc hq
    have := recvTrace_drain ds m s hf he hq
    rw [hexc] at this
    exact this
  · intro s ds m hf he hexc hq
    have := recvTrace_drain ds m s hf he hq
    rw [hexc] at this
    exact this
  · exact receive_eosNone_completes
  · intro s evs h
    exact (runSub_final_done evs s h).2

theorem c2_witness :
    recvTrace subDrain 2
      = [RecvOutcome.item 7, RecvOutcome.raised "transport error"] :=
  (c2_end_of_stream_semantics).1 subDrain [7] 1 "transport error" rfl rfl rfl rfl

/-! ## C7 -/

/-- C7 counterexample: the statement line "SEARCH *  SDDP/1.0" (two spaces
    between the pattern and the protocol) matches the claim's regex
    ^SEARCH +pattern +(HTTP|SDDP)/M.m with major 1 >= 1, yet the responder
    sends nothing: its compiled pattern requires exactly one space between
    the pattern and the protocol token. -/
theorem c7_counterexample_two_spaces :
    claimSearchMatches (toB "SEARCH *  SDDP/1.0") = true ∧
    searchTwoSpaces.statement_line = toB "SEARCH *  SDDP/1.0" ∧
    run_responder_step advNoFrom bindingA addrA searchTwoSpaces = none :=
  ⟨by decide, by decide, by decide⟩

/-- C7 amended: for a received datagram whose statement line matches the
    responder's pattern (one or more spaces after SEARCH, exactly one space
    between the pattern and the protocol token) with integer version groups
    and major >= 1, the responder sends, on the same binding to the source
    address, a copy of the advertisement datagram whose statement line is
    <protocol>/<major>.<minor> 200 OK, with From set to
    <unicast_ip>:<unicast_port> exactly when the copy had no decoded From
    header; non-matching statement lines, an unparsable major group, or
    major < 1 produce no response. -/
theorem c7_responder_behavior (adv : SddpDatagram) (binding : RespBinding) (addr : Addr)
    (d : SddpDatagram) :
    (∀ (pat proto majS minS : Bytes) (mj mn : Int),
        matchSearchStatement d.statement_line = some (pat, proto, majS, minS) →
        pyParseInt majS = some mj → pyParseInt minS = some mn → 1 ≤ mj →
        (run_responder_step adv binding addr d).map (fun r => r.1) = some binding ∧
        (run_responder_step adv binding addr d).map (fun r => r.2.1) = some addr ∧
        (run_responder_step adv binding addr d).map (fun r => r.2.2.statement_line)
          = some (proto ++ '/' :: (intToBytes mj ++ '.' :: (intToBytes mn ++ toB " 200 OK"))) ∧
        (run_responder_step adv binding addr d).map (fun r => r.2.2.body) = some adv.body ∧
        (ciContains adv.headers (toB "From") = true →
          (run_responder_step adv binding addr d).map (fun r => r.2.2.headers)
            = some adv.headers ∧
          (run_responder_step adv binding addr d).map (fun r => r.2.2.raw_headers)
            = some adv.raw_headers) ∧
        (ciContains adv.headers (toB "From") = false →
          (run_responder_step adv binding addr d).map
              (fun r => ciLookup r.2.2.headers (toB "From"))
            = some (some (HeaderValue.str
                (binding.unicast_ip ++ ':' :: intToBytes binding.unicast_port))) ∧
          ∀ k : Bytes, lowerB k ≠ lowerB (toB "From") →
            (run_responder_step adv binding addr d).map
              (fun r => ciLookup r.2.2.headers k) = some (ciLookup adv.headers k))) ∧
    (matchSearchStatement d.statement_line = none →
        run_responder_step adv binding addr d = none) ∧
    (∀ pat proto majS minS : Bytes,
        matchSearchStatement d.statement_line = some (pat, proto, majS, minS) →
        pyParseInt majS = none → run_responder_step adv binding addr d = none) ∧
    (∀ (pat proto majS minS : Bytes) (mj : Int),
        matchSearchStatement d.statement_line = some (pat, proto, majS, minS) →
        pyParseInt majS = some mj → mj < 1 →
        run_responder_step adv binding addr d = none) := by
  refine ⟨?_, ?_, ?_, ?_⟩
  · intro pat proto majS minS mj mn hm hmj hmn h1
    cases hfrom : ciContains adv.headers (toB "From") with
    | true =>
        simp [run_responder_step, hm, hmj, hmn, h1, hfrom]
    | false =>
        refine ⟨?_, ?_, ?_, ?_, ?_, ?_⟩
        · simp [run_responder_step, hm, hmj, hmn, h1, hfrom]
        · simp [run_responder_step, hm, hmj, hmn, h1, hfrom]
        · simp [run_responder_step, hm, hmj, hmn, h1, hfrom, set_header]
        · simp [run_responder_step, hm, hmj, hmn, h1, hfrom, set_header]
        · intro hcontra
          exact absurd hcontra (by decide)
        · intro _
          constructor
          · simp [run_responder_step, hm, hmj, hmn, h1, hfrom, set_header,
              ciLookup_ciSet]
          · intro k hk
            have hne : ¬ lowerB (toB "From") = lowerB k := fun h => hk h.symm
            simp [run_responder_step, hm, hmj, hmn, h1, hfrom, set_header,
              ciLookup_ciSet, hne]
  · intro hm
    simp [run_responder_step, hm]
  · intro pat proto majS minS hm hmj
    simp [run_responder_step, hm, hmj]
  · intro pat proto majS minS mj hm hmj h1
    have hng : ¬ (1 ≤ mj) := not_le.mpr h1
    cases hmn : pyParseInt minS with
    | none => simp [run_responder_step, hm, hmj, hmn]
    | some mn => simp [run_responder_step, hm, hmj, hmn, hng]

theorem c7_witness :
    (run_responder_step advNoFrom bindingA addrA searchOneSpace).map
        (fun r => r.2.2.statement_line)
      = some (toB "SDDP" ++ '/' :: (intToBytes 1 ++ '.' :: (intToBytes 0 ++ toB " 200 OK"))) ∧
    (run_responder_step advNoFrom bindingA addrA searchOneSpace).map
        (fun r => ciLookup r.2.2.headers (toB "From"))
      = some (some (HeaderValue.str
          (bindingA.unicast_ip ++ ':' :: intToBytes bindingA.unicast_port))) :=
  ⟨((c7_responder_behavior advNoFrom bindingA addrA searchOneSpace).1
      (toB "*") (toB "SDDP") (toB "1") (toB "0") 1 0
      (by decide) (by decide) (by decide) (by decide)).2.2.1,
   (((c7_responder_behavior advNoFrom bindingA addrA searchOneSpace).1
      (toB "*") (toB "SDDP") (toB "1") (toB "0") 1 0
      (by decide) (by decide) (by decide) (by decide)).2.2.2.2.2 (by decide)).1⟩

/-! ## C1: lemmas about the statement-line split -/

theorem splitOnceAtLf_append (s r : Bytes) (h : '\n' ∉ s) :
    splitOnceAtLf (s ++ '\n' :: r) = some (s, r) := by
  induction s with
  | nil => simp [splitOnceAtLf]
  | cons c s ih =>
      have hc : ¬ c = '\n' := fun hc => h (hc ▸ List.mem_cons_self c s)
      have hs : '\n' ∉ s := fun hm => h (List.mem_cons_of_mem c hm)
      simp [splitOnceAtLf, hc, ih hs]

theorem stripTrailingCR_concat (s : Bytes) : stripTrailingCR (s ++ ['\r']) = s := by
  simp [stripTrailingCR]

/-! ## C1: lemmas about the blank-line search -/

theorem findDelim_append_skip (l rest : Bytes) (h : '\n' ∉ l) :
    findDelim (l ++ rest) = (findDelim rest).map (fun p => (l ++ p.1, p.2)) := by
  induction l with
  | nil =>
      cases hf : findDelim rest <;> simp [hf]
  | cons c l ih =>
      have hc : ¬ c = '\n' := fun hc => h (hc ▸ List.mem_cons_self c l)
      have hl : '\n' ∉ l := fun hm => h (List.mem_cons_of_mem c hm)
      have step : findDelim (c :: (l ++ rest))
          = (findDelim (l ++ rest)).map (fun p => (c :: p.1, p.2)) := by
        simp [findDelim, hc]
      rw [List.cons_append, step, ih hl]
      cases hf : findDelim rest <;> simp [hf]

theorem joinCRLF_nil : joinCRLF [] = [] := rfl

theorem joinCRLF_cons (l : Bytes) (L : List Bytes) :
    joinCRLF (l :: L) = l ++ '\r' :: '\n' :: joinCRLF L := by
  simp [joinCRLF]

theorem joinCRLF_head (L : List Bytes) (hL : ∀ l ∈ L, cleanLine l) :
    L = [] ∨ ∃ c t, joinCRLF L = c :: t ∧ c ≠ '\r' ∧ c ≠ '\n' := by
  cases L with
  | nil => exact Or.inl rfl
  | cons l L =>
      right
      obtain ⟨hne, hch⟩ := hL l (List.mem_cons_self l L)
      cases hl : l with
      | nil => exact absurd hl hne
      | cons c t =>
          subst hl
          refine ⟨c, t ++ '\r' :: '\n' :: joinCRLF L, ?_, ?_, ?_⟩
          · rw [joinCRLF_cons]; simp
          · exact (hch c (List.mem_cons_self c t)).2
          · exact (hch c (List.mem_cons_self c t)).1

theorem findDelim_join_none (L : List Bytes) (hL : ∀ l ∈ L, cleanLine l) :
    findDelim (joinCRLF L) = none := by
  induction L with
  | nil => rfl
  | cons l L ih =>
      have hln : '\n' ∉ l := fun hm => ((hL l (List.mem_cons_self l L)).2 '\n' hm).1 rfl
      have hL2 : ∀ l2 ∈ L, cleanLine l2 := fun l2 hm => hL l2 (List.mem_cons_of_mem l hm)
      rw [joinCRLF_cons, findDelim_append_skip l _ hln]
      have step1 : findDelim ('\r' :: '\n' :: joinCRLF L)
          = (findDelim ('\n' :: joinCRLF L)).map (fun p => ('\r' :: p.1, p.2)) := by
        simp [findDelim]
      have step2 : findDelim ('\n' :: joinCRLF L)
          = (findDelim (joinCRLF L)).map (fun p => ('\n' :: p.1, p.2)) := by
        rcases joinCRLF_head L hL2 with hnil | ⟨c, t, hj, hcr, hlf⟩
        · subst hnil; simp [findDelim, joinCRLF]
        · rw [hj]
          simp [findDelim, hcr, hlf]
      rw [step1, step2, ih hL2]
      rfl

theorem findDelim_join_body (L : List Bytes) (body : Bytes) (hL : ∀ l ∈ L, cleanLine l)
    (hne : L ≠ []) :
    findDelim (joinCRLF L ++ '\r' :: '\n' :: body)
      = some (innerCRLF L ++ ['\r'], body) := by
  induction L with
  | nil => exact absurd rfl hne
  | cons l L ih =>
      have hln : '\n' ∉ l := fun hm => ((hL l (List.mem_cons_self l L)).2 '\n' hm).1 rfl
      have hL2 : ∀ l2 ∈ L, cleanLine l2 := fun l2 hm => hL l2 (List.mem_cons_of_mem l hm)
      cases L with
      | nil =>
          rw [joinCRLF_cons, joinCRLF_nil]
          rw [show (l ++ '\r' :: '\n' :: ([] : Bytes)) ++ '\r' :: '\n' :: body
              = l ++ ('\r' :: '\n' :: '\r' :: '\n' :: body) from by simp]
          rw [findDelim_append_skip l _ hln]
          simp [findDelim, innerCRLF]
      | cons l2 L2 =>
          have hrec := ih hL2 (by simp)
          rw [joinCRLF_cons]
          rw [show (l ++ '\r' :: '\n' :: joinCRLF (l2 :: L2)) ++ '\r' :: '\n' :: body
              = l ++ ('\r' :: '\n' :: (joinCRLF (l2 :: L2) ++ '\r' :: '\n' :: body))
              from by simp]
          rw [findDelim_append_skip l _ hln]
          have step1 : findDelim ('\r' :: '\n' :: (joinCRLF (l2 :: L2) ++ '\r' :: '\n' :: body))
              = (findDelim ('\n' :: (joinCRLF (l2 :: L2) ++ '\r' :: '\n' :: body))).map
                  (fun p => ('\r' :: p.1, p.2)) := by
            simp [findDelim]
          have step2 : findDelim ('\n' :: (joinCRLF (l2 :: L2) ++ '\r' :: '\n' :: body))
              = (findDelim (joinCRLF (l2 :: L2) ++ '\r' :: '\n' :: body)).map
                  (fun p => ('\n' :: p.1, p.2)) := by
            rcases joinCRLF_head (l2 :: L2) hL2 with hnil | ⟨c, t, hj, hcr, hlf⟩
            · exact absurd hnil (by simp)
            · rw [show joinCRLF (l2 :: L2) ++ '\r' :: '\n' :: body
                  = c :: (t ++ '\r' :: '\n' :: body) from by rw [hj]; rfl]
              simp [findDelim, hcr, hlf]
          rw [step1, step2, hrec]
          simp [innerCRLF]

/-! ## C1: lemmas about line-ending normalization -/

theorem normalizeLf_line_prepend (l s : Bytes) (h : ∀ c ∈ l, c ≠ '\n' ∧ c ≠ '\r') :
    normalizeLf (l ++ s) = l ++ normalizeLf s := by
  induction l with
  | nil => rfl
  | cons c l ih =>
      have hc := h c (List.mem_cons_self c l)
      have hl : ∀ c2 ∈ l, c2 ≠ '\n' ∧ c2 ≠ '\r' :=
        fun c2 hm => h c2 (List.mem_cons_of_mem c hm)
      rw [List.cons_append]
      cases hls : l ++ s with
      | nil => simp [normalizeLf, hc.1, List.append_eq_nil.mp hls]
      | cons c2 t =>
          rw [show normalizeLf (c :: c2 :: t) = c :: normalizeLf (c2 :: t) from by
            simp [normalizeLf, hc.1, hc.2]]
          rw [← hls, ih hl]
          rfl

theorem normalizeLf_crlf (s : Bytes) :
    normalizeLf ('\r' :: '\n' :: s) = '\r' :: '\n' :: normalizeLf s := by
  simp [normalizeLf]

theorem normalizeLf_join (L : List Bytes) (hL : ∀ l ∈ L, cleanLine l) :
    normalizeLf (joinCRLF L) = joinCRLF L := by
  induction L with
  | nil => rfl
  | cons l L ih =>
      have hch := (hL l (List.mem_cons_self l L)).2
      have hL2 : ∀ l2 ∈ L, cleanLine l2 := fun l2 hm => hL l2 (List.mem_cons_of_mem l hm)
      rw [joinCRLF_cons, normalizeLf_line_prepend l _ hch, normalizeLf_crlf, ih hL2]

theorem normalizeLf_inner (L : List Bytes) (hL : ∀ l ∈ L, cleanLine l) :
    normalizeLf (innerCRLF L) = innerCRLF L := by
  induction L with
  | nil => rfl
  | cons l L ih =>
      have hch := (hL l (List.mem_cons_self l L)).2
      have hL2 : ∀ l2 ∈ L, cleanLine l2 := fun l2 hm => hL l2 (List.mem_cons_of_mem l hm)
      cases L with
      | nil =>
          have := normalizeLf_line_prepend l [] hch
          simpa [innerCRLF, normalizeLf] using this
      | cons l2 L2 =>
          rw [show innerCRLF (l :: l2 :: L2) = l ++ '\r' :: '\n' :: innerCRLF (l2 :: L2)
              from rfl]
          rw [normalizeLf_line_prepend l _ hch, normalizeLf_crlf, ih hL2]

/-! ## C1: lemmas about line splitting -/

theorem splitLinesCRLF_no_cr (l : Bytes) (h : ∀ c ∈ l, c ≠ '\r') :
    splitLinesCRLF l = [l] := by
  induction l with
  | nil => rfl
  | cons c l ih =>
      have hc := h c (List.mem_cons_self c l)
      have hl : ∀ c2 ∈ l, c2 ≠ '\r' := fun c2 hm => h c2 (List.mem_cons_of_mem c hm)
      cases l with
      | nil => rfl
      | cons c2 t =>
          rw [show splitLinesCRLF (c :: c2 :: t)
              = match splitLinesCRLF (c2 :: t) with
                | [] => [[c]]
                | l0 :: ls => (c :: l0) :: ls from by simp [splitLinesCRLF, hc]]
          rw [ih hl]

theorem splitLinesCRLF_prepend (l s : Bytes) (h : ∀ c ∈ l, c ≠ '\r') :
    splitLinesCRLF (l ++ '\r' :: '\n' :: s) = l :: splitLinesCRLF s := by
  induction l with
  | nil => simp [splitLinesCRLF]
  | cons c l ih =>
      have hc := h c (List.mem_cons_self c l)
      have hl : ∀ c2 ∈ l, c2 ≠ '\r' := fun c2 hm => h c2 (List.mem_cons_of_mem c hm)
      rw [List.cons_append]
      cases hls : l ++ '\r' :: '\n' :: s with
      | nil => exact absurd hls (by simp)
      | cons c2 t =>
          rw [show splitLinesCRLF (c :: c2 :: t)
              = match splitLinesCRLF (c2 :: t) with
                | [] => [[c]]
                | l0 :: ls => (c :: l0) :: ls from by simp [splitLinesCRLF, hc]]
          rw [← hls, ih hl]

theorem splitLinesCRLF_join (L : List Bytes) (hL : ∀ l ∈ L, cleanLine l) :
    splitLinesCRLF (joinCRLF L) = L ++ [[]] := by
  induction L with
  | nil => rfl
  | cons l L ih =>
      have hcr : ∀ c ∈ l, c ≠ '\r' := fun c hm => ((hL l (List.mem_cons_self l L)).2 c hm).2
      have hL2 : ∀ l2 ∈ L, cleanLine l2 := fun l2 hm => hL l2 (List.mem_cons_of_mem l hm)
      rw [joinCRLF_cons, splitLinesCRLF_prepend l _ hcr, ih hL2]
      rfl

theorem splitLinesCRLF_inner (L : List Bytes) (hL : ∀ l ∈ L, cleanLine l) (hne : L ≠ []) :
    splitLinesCRLF (innerCRLF L) = L := by
  induction L with
  | nil => exact absurd rfl hne
  | cons l L ih =>
      have hcr : ∀ c ∈ l, c ≠ '\r' := fun c hm => ((hL l (List.mem_cons_self l L)).2 c hm).2
      have hL2 : ∀ l2 ∈ L, cleanLine l2 := fun l2 hm => hL l2 (List.mem_cons_of_mem l hm)
      cases L with
      | nil => exact splitLinesCRLF_no_cr l hcr
      | cons l2 L2 =>
          rw [show innerCRLF (l :: l2 :: L2) = l ++ '\r' :: '\n' :: innerCRLF (l2 :: L2)
              from rfl]
          rw [splitLinesCRLF_prepend l _ hcr, ih hL2 (by simp)]

/-! ## C1: lemmas about header-line parsing -/

theorem splitAtColon_append (k r : Bytes) (h : ':' ∉ k) :
    splitAtColon (k ++ ':' :: r) = some (k, r) := by
  induction k with
  | nil => simp [splitAtColon]
  | cons c k ih =>
      have hc : ¬ c = ':' := fun hc => h (hc ▸ List.mem_cons_self c k)
      have hk : ':' ∉ k := fun hm => h (List.mem_cons_of_mem c hm)
      simp [splitAtColon, hc, ih hk]

theorem dropLeadingWS_of_goodValue (v : Bytes) (h : goodValue v) :
    dropLeadingWS (' ' :: v) = v := by
  have h1 : dropLeadingWS (' ' :: v) = dropLeadingWS v := by simp [dropLeadingWS]
  rw [h1]
  cases hv : v with
  | nil => rfl
  | cons c t =>
      have hc := h.2 c (by rw [hv]; rfl)
      simp [dropLeadingWS, hc.1, hc.2]

theorem parseHeaderLine_encode (k v : Bytes) (hk : goodName k) (hv : goodValue v) :
    parseHeaderLine (headerLine (k, v)) = some (k, v) := by
  have hnc : ':' ∉ k := fun hm => (hk.2 ':' hm).1 rfl
  have : headerLine (k, v) = k ++ ':' :: (' ' :: v) := rfl
  rw [parseHeaderLine, this, splitAtColon_append k (' ' :: v) hnc]
  simp [dropLeadingWS_of_goodValue v hv]

theorem headerLine_clean (k v : Bytes) (hk : goodName k) (hv : goodValue v) :
    cleanLine (headerLine (k, v)) := by
  constructor
  · cases hke : k with
    | nil => exact absurd hke hk.1
    | cons c t => simp [headerLine, hke]
  · intro c hc
    rw [show headerLine (k, v) = k ++ ':' :: ' ' :: v from rfl] at hc
    rcases List.mem_append.mp hc with hm | hm
    · exact ⟨(hk.2 c hm).2.1, (hk.2 c hm).2.2.1⟩
    · rcases List.mem_cons.mp hm with rfl | hm
      · exact ⟨by decide, by decide⟩
      · rcases List.mem_cons.mp hm with rfl | hm
        · exact ⟨by decide, by decide⟩
        · exact hv.1 c hm

/-! ## C1: lemmas about rebuilding the dict from parsed lines -/

theorem ciLookup_pair {α : Type} (k0 : Bytes) (v0 : α) (k : Bytes) :
    ciLookup [(k0, v0)] k = if lowerB k0 = lowerB k then some v0 else none := by
  simp [ciLookup]

theorem ciLookup_append_left_none {α : Type} (d1 d2 : CIDict α) (k : Bytes)
    (h : ciLookup d1 k = none) : ciLookup (d1 ++ d2) k = ciLookup d2 k := by
  induction d1 with
  | nil => rfl
  | cons e rest ih =>
      obtain ⟨k0, v0⟩ := e
      by_cases h0 : lowerB k0 = lowerB k
      · simp [ciLookup, h0] at h
      · simp only [ciLookup, h0, if_false] at h ⊢
        simp [h0]
        exact ih h

theorem ciSet_absent {α : Type} (d : CIDict α) (k : Bytes) (v : α)
    (h : ciLookup d k = none) : ciSet d k v = d ++ [(k, v)] := by
  induction d with
  | nil => rfl
  | cons e rest ih =>
      obtain ⟨k0, v0⟩ := e
      by_cases h0 : lowerB k0 = lowerB k
      · simp [ciLookup, h0] at h
      · have hrest : ciLookup rest k = none := by
          simpa [ciLookup, h0] using h
        simp [ciSet, fun hk => h0 (hk : lowerB k0 = lowerB k), ih hrest]

theorem foldl_ciSet_disjoint {α : Type} :
    ∀ (E : List (Bytes × α)) (acc : CIDict α),
      (∀ e ∈ E, ciLookup acc e.1 = none) → ciWF E →
      E.foldl (fun a e => ciSet a e.1 e.2) acc = acc ++ E := by
  intro E
  induction E with
  | nil => intro acc _ _; simp
  | cons e E ih =>
      intro acc hdisj hwf
      have hset : ciSet acc e.1 e.2 = acc ++ [e] := by
        rw [ciSet_absent acc e.1 e.2 (hdisj e (List.mem_cons_self e E))]
      have hwfc := hwf
      rw [ciWF, List.map_cons, List.nodup_cons] at hwfc
      have hwf2 : ciWF E := hwfc.2
      have hhead : ∀ e2 ∈ E, lowerB e2.1 ≠ lowerB e.1 := by
        intro e2 hm heq
        exact hwfc.1 (List.mem_map.mpr ⟨e2, hm, heq⟩)
      have hdisj2 : ∀ e2 ∈ E, ciLookup (acc ++ [e]) e2.1 = none := by
        intro e2 hm
        rw [ciLookup_append_left_none acc [e] e2.1 (hdisj e2 (List.mem_cons_of_mem e hm))]
        rw [ciLookup_pair]
        exact if_neg (fun hk => hhead e2 hm hk.symm)
      rw [List.foldl_cons, hset, ih (acc ++ [e]) hdisj2 hwf2]
      simp

theorem foldl_lines_eq_foldl_ciSet :
    ∀ (E : List (Bytes × Bytes)) (acc : CIDict Bytes),
      (∀ e ∈ E, goodName e.1 ∧ goodValue e.2) →
      (E.map headerLine).foldl
          (fun a line =>
            match parseHeaderLine line with
            | none => a
            | some (name, value) => ciSet a name value) acc
        = E.foldl (fun a e => ciSet a e.1 e.2) acc := by
  intro E
  induction E with
  | nil => intro acc _; rfl
  | cons e E ih =>
      intro acc hgood
      obtain ⟨hk, hv⟩ := hgood e (List.mem_cons_self e E)
      have hline := parseHeaderLine_encode e.1 e.2 hk hv
      have hgood2 : ∀ e2 ∈ E, goodName e2.1 ∧ goodValue e2.2 :=
        fun e2 hm => hgood e2 (List.mem_cons_of_mem e hm)
      simp only [List.map_cons, List.foldl_cons]
      rw [show (headerLine (e.1, e.2)) = headerLine e from by rfl] at hline
      rw [hline]
      exact ih (ciSet acc e.1 e.2) hgood2

/-! ## C1: permutation lemmas for the sorted serialization -/

theorem insertEntrySorted_perm {α : Type} (e : Bytes × α) (l : List (Bytes × α)) :
    List.Perm (insertEntrySorted e l) (e :: l) := by
  induction l with
  | nil => exact List.Perm.refl _
  | cons e2 rest ih =>
      by_cases hlt : bytesLt e.1 e2.1 = true
      · simp [insertEntrySorted, hlt]
      · simp only [insertEntrySorted, hlt, if_false]
        exact List.Perm.trans (List.Perm.cons e2 ih) (List.Perm.swap e e2 rest)

theorem sortEntries_perm {α : Type} (l : List (Bytes × α)) :
    List.Perm (sortEntries l) l := by
  induction l with
  | nil => exact List.Perm.refl _
  | cons e rest ih =>
      exact List.Perm.trans (insertEntrySorted_perm e (sortEntries rest))
        (List.Perm.cons e ih)

theorem ciWF_of_perm {α : Type} (d1 d2 : CIDict α) (hp : List.Perm d1 d2)
    (h : ciWF d2) : ciWF d1 := by
  have hm : List.Perm (d1.map fun e => lowerB e.1) (d2.map fun e => lowerB e.1) :=
    hp.map _
  exact hm.nodup_iff.mpr h

/-! ## C1: case-insensitive lookup through permutations -/

theorem ciLookup_some_iff {α : Type} (d : CIDict α) (k : Bytes) (v : α) (hwf : ciWF d) :
    ciLookup d k = some v ↔ ∃ k0, (k0, v) ∈ d ∧ lowerB k0 = lowerB k := by
  induction d with
  | nil => simp [ciLookup]
  | cons e rest ih =>
      obtain ⟨k0, v0⟩ := e
      have hwfc := hwf
      rw [ciWF, List.map_cons, List.nodup_cons] at hwfc
      have hwf2 : ciWF rest := hwfc.2
      have hhead : ∀ k1 v1, (k1, v1) ∈ rest → lowerB k1 ≠ lowerB k0 := by
        intro k1 v1 hm heq
        exact hwfc.1 (List.mem_map.mpr ⟨(k1, v1), hm, heq⟩)
      by_cases h0 : lowerB k0 = lowerB k
      · simp only [ciLookup, h0, if_true]
        constructor
        · rintro heq
          exact ⟨k0, by simp [Option.some.injEq] at heq; simp [heq], h0⟩
        · rintro ⟨k1, hmem, hlow⟩
          rcases List.mem_cons.mp hmem with heq | hmem2
          · rw [(Prod.mk.injEq _ _ _ _).mp heq.symm |>.2]
          · exact absurd (hlow.trans h0.symm) (hhead k1 v hmem2)
      · simp only [ciLookup, h0, if_false]
        rw [ih hwf2]
        constructor
        · rintro ⟨k1, hmem, hlow⟩
          exact ⟨k1, List.mem_cons_of_mem _ hmem, hlow⟩
        · rintro ⟨k1, hmem, hlow⟩
          rcases List.mem_cons.mp hmem with heq | hmem2
          · have hk1 : k1 = k0 := ((Prod.mk.injEq _ _ _ _).mp heq).1
            exact absurd (hk1 ▸ hlow) h0
          · exact ⟨k1, hmem2, hlow⟩

theorem ciLookup_none_iff {α : Type} (d : CIDict α) (k : Bytes) :
    ciLookup d k = none ↔ ∀ p ∈ d, lowerB p.1 ≠ lowerB k := by
  induction d with
  | nil => simp [ciLookup]
  | cons e rest ih =>
      obtain ⟨k0, v0⟩ := e
      by_cases h0 : lowerB k0 = lowerB k
      · simp only [ciLookup, if_pos h0]
        constructor
        · intro h; exact absurd h (by simp)
        · intro h; exact absurd h0 (h (k0, v0) (List.mem_cons_self _ _))
      · simp only [ciLookup, if_neg h0]
        rw [ih]
        constructor
        · intro h p hp
          rcases List.mem_cons.mp hp with rfl | hm
          · exact h0
          · exact h p hm
        · intro h p hm
          exact h p (List.mem_cons_of_mem _ hm)

theorem ciLookup_of_perm {α : Type} (d1 d2 : CIDict α) (hp : List.Perm d1 d2)
    (hwf : ciWF d2) : ∀ k, ciLookup d1 k = ciLookup d2 k := by
  intro k
  have hwf1 : ciWF d1 := ciWF_of_perm d1 d2 hp hwf
  cases h2 : ciLookup d2 k with
  | none =>
      rw [ciLookup_none_iff] at h2 ⊢
      exact fun p hm => h2 p (hp.mem_iff.mp hm)
  | some v =>
      rw [ciLookup_some_iff d2 k v hwf] at h2
      obtain ⟨k0, hmem, hlow⟩ := h2
      rw [ciLookup_some_iff d1 k v hwf1]
      exact ⟨k0, hp.mem_iff.mpr hmem, hlow⟩

/-! ## C1: the round trip -/

theorem flatMap_encode (E : List (Bytes × Bytes)) :
    E.flatMap (fun e => encode_http_header e.1 e.2) = joinCRLF (E.map headerLine) := by
  induction E with
  | nil => rfl
  | cons e E ih =>
      rw [List.flatMap_cons, List.map_cons, joinCRLF_cons, ih]
      rw [show encode_http_header e.1 e.2 = headerLine e ++ ['\r', '\n'] from by
        simp [encode_http_header, headerLine]]
      simp

/-- C1 amended: the round trip parse(serialize(d)) reconstructs a datagram
    equal to d (statement line, case-insensitive raw headers, body - the
    source's __eq__) whenever the statement line is nonempty and LF-free,
    the raw header names are nonempty and free of colon, CR, LF and
    whitespace, the raw values are CR/LF-free, do not start with blank or
    tab, and are short enough that the email library performs no RFC 2822
    folding, and a nonempty body comes with at least one header. -/
theorem c1_roundtrip (d : SddpDatagram)
    (hstmt : goodStmt d.statement_line)
    (hwf : ciWF d.raw_headers)
    (hgood : ∀ e ∈ d.raw_headers, goodName e.1 ∧ goodValue e.2)
    (hbody : d.body = [] ∨ d.raw_headers ≠ []) :
    ∃ d2, parseSddpDatagram (rebuild_raw_data d) = some d2 ∧ sddpDatagramEq d2 d := by
  have hperm : List.Perm (sortEntries d.raw_headers) d.raw_headers :=
    sortEntries_perm d.raw_headers
  have hwfE : ciWF (sortEntries d.raw_headers) :=
    ciWF_of_perm _ d.raw_headers hperm hwf
  have hgoodE : ∀ e ∈ sortEntries d.raw_headers, goodName e.1 ∧ goodValue e.2 :=
    fun e hm => hgood e (hperm.mem_iff.mp hm)
  have hclean : ∀ l ∈ (sortEntries d.raw_headers).map headerLine, cleanLine l := by
    intro l hm
    obtain ⟨e, he, rfl⟩ := List.mem_map.mp hm
    exact headerLine_clean e.1 e.2 (hgoodE e he).1 (hgoodE e he).2
  have hnostmt : '\n' ∉ d.statement_line ++ ['\r'] := by
    intro hm
    rcases List.mem_append.mp hm with hm | hm
    · exact hstmt.2 hm
    · simp at hm
  have hfoldE : (sortEntries d.raw_headers).foldl (fun a e => ciSet a e.1 e.2) []
      = sortEntries d.raw_headers := by
    have := foldl_ciSet_disjoint (sortEntries d.raw_headers) []
      (fun e _ => rfl) hwfE
    simpa using this
  by_cases hb : d.body = []
  · -- no body: the serialization ends after the header block
    have hser : rebuild_raw_data d
        = (d.statement_line ++ ['\r'])
            ++ '\n' :: joinCRLF ((sortEntries d.raw_headers).map headerLine) := by
      rw [rebuild_raw_data]
      simp [hstmt.1, hb, flatMap_encode]
    have hsplit : split_bytes_at_lf_or_crlf1 (rebuild_raw_data d)
        = some (d.statement_line,
            joinCRLF ((sortEntries d.raw_headers).map headerLine)) := by
      rw [hser, split_bytes_at_lf_or_crlf1, splitOnceAtLf_append _ _ hnostmt]
      simp [stripTrailingCR_concat]
    have hsb : split_headers_and_body
        (joinCRLF ((sortEntries d.raw_headers).map headerLine))
        = (joinCRLF ((sortEntries d.raw_headers).map headerLine), []) := by
      rw [split_headers_and_body, findDelim_join_none _ hclean]
    have hph : parse_http_headers
        (joinCRLF ((sortEntries d.raw_headers).map headerLine))
        = (sortEntries d.raw_headers, []) := by
      simp only [parse_http_headers, hsb]
      rw [normalizeLf_join _ hclean, splitLinesCRLF_join _ hclean]
      rw [List.foldl_append]
      rw [foldl_lines_eq_foldl_ciSet (sortEntries d.raw_headers) [] hgoodE]
      rw [hfoldE]
      simp [parseHeaderLine, splitAtColon]
    refine ⟨{ statement_line := d.statement_line
              raw_headers := sortEntries d.raw_headers
              headers := rebuildHeaders (sortEntries d.raw_headers)
              body := [] }, ?_, rfl, ?_, hb.symm⟩
    · simp only [parseSddpDatagram, hsplit, hph]
    · exact ciLookup_of_perm _ d.raw_headers hperm hwf
  · -- nonempty body: there is at least one header line before the blank line
    have hraw : d.raw_headers ≠ [] := hbody.resolve_left hb
    have hEne : sortEntries d.raw_headers ≠ [] := by
      intro h0
      exact hraw (List.eq_nil_of_length_eq_zero (hperm.length_eq ▸ h0 ▸ rfl))
    have hLne : (sortEntries d.raw_headers).map headerLine ≠ [] := by
      intro h0
      exact hEne (List.map_eq_nil_iff.mp h0)
    have hser : rebuild_raw_data d
        = (d.statement_line ++ ['\r'])
            ++ '\n' :: (joinCRLF ((sortEntries d.raw_headers).map headerLine)
              ++ '\r' :: '\n' :: d.body) := by
      rw [rebuild_raw_data]
      simp [hstmt.1, hb, flatMap_encode]
    have hsplit : split_bytes_at_lf_or_crlf1 (rebuild_raw_data d)
        = some (d.statement_line,
            joinCRLF ((sortEntries d.raw_headers).map headerLine)
              ++ '\r' :: '\n' :: d.body) := by
      rw [hser, split_bytes_at_lf_or_crlf1, splitOnceAtLf_append _ _ hnostmt]
      simp [stripTrailingCR_concat]
    have hsb : split_headers_and_body
        (joinCRLF ((sortEntries d.raw_headers).map headerLine)
          ++ '\r' :: '\n' :: d.body)
        = (innerCRLF ((sortEntries d.raw_headers).map headerLine), d.body) := by
      rw [split_headers_and_body, findDelim_join_body _ d.body hclean hLne]
      simp [stripTrailingCR_concat]
    have hph : parse_http_headers
        (joinCRLF ((sortEntries d.raw_headers).map headerLine)
          ++ '\r' :: '\n' :: d.body)
        = (sortEntries d.raw_headers, d.body) := by
      simp only [parse_http_headers, hsb]
      rw [normalizeLf_inner _ hclean, splitLinesCRLF_inner _ hclean hLne]
      rw [foldl_lines_eq_foldl_ciSet (sortEntries d.raw_headers) [] hgoodE]
      rw [hfoldE]
    refine ⟨{ statement_line := d.statement_line
              raw_headers := sortEntries d.raw_headers
              headers := rebuildHeaders (sortEntries d.raw_headers)
              body := d.body }, ?_, rfl, ?_, rfl⟩
    · simp only [parseSddpDatagram, hsplit, hph]
    · exact ciLookup_of_perm _ d.raw_headers hperm hwf

theorem c1_witness :
    (parseSddpDatagram (rebuild_raw_data dgRoundtrip)).isSome = true := by
  obtain ⟨d2, h1, _⟩ := c1_roundtrip dgRoundtrip (by decide) (by decide)
    (by decide) (Or.inl (by decide))
  rw [h1]
  rfl

/-- C1 counterexample: a datagram with a nonempty body and no headers does
    not round-trip: the serialization is statement CRLF CRLF body, the
    statement split consumes the blank line's first LF, no blank-line
    delimiter remains, and the parsed body is empty. -/
theorem c1_counterexample_body_lost :
    parseSddpDatagram (rebuild_raw_data dgBodyNoHeaders) = some dgBodyNoHeadersReparsed ∧
    dgBodyNoHeadersReparsed.body = [] ∧
    dgBodyNoHeaders.body = toB "hello" ∧
    ¬ sddpDatagramEq dgBodyNoHeadersReparsed dgBodyNoHeaders := by
  refine ⟨by decide, by decide, by decide, fun h => ?_⟩
  have hb := h.2.2
  rw [show dgBodyNoHeadersReparsed.body = [] from by decide] at hb
  rw [show dgBodyNoHeaders.body = toB "hello" from by decide] at hb
  exact absurd hb (by decide)

end SddpProof
